import Mathlib

/-
  Verification of the WebGoFive Gomoku engine (RuleEngine, GameState, AIEngine)
  against its natural-language specification.

  The JavaScript sources are shallowly embedded:
  * a board is a total function from integer coordinates to cell values
    (0 = empty, 1 = black, 2 = white); `board[ny][nx]` in the source is
    written `board nx ny` here;
  * JS string operations used by the pattern matcher (`Array.join(',')`,
    `String.includes`) are embedded on lists of characters, because the
    classification behaviour of `RuleEngine._matchPattern` depends on them;
  * fallible operations return `Option`;
  * the AI search (`AIEngine`) is embedded with an explicit store of
    allocated board arrays / history arrays / state objects so that the
    "never mutates the caller's state" claim is expressible.
-/

namespace WebGoFive

/-! ## Boards, directions -/

/-- A board: cell value (0 empty, 1 black, 2 white) at integer coordinates.
The JS source reads `board[ny][nx]`; we write `b nx ny`. -/
abbrev Board := ℤ → ℤ → ℕ

/-- A direction vector, from `RuleEngine.constructor` (`this.directions`). -/
structure Dir where
  dx : ℤ
  dy : ℤ
deriving DecidableEq

def dirHorizontal : Dir := ⟨1, 0⟩

def dirVertical : Dir := ⟨0, 1⟩

def dirDiagDown : Dir := ⟨1, 1⟩

def dirDiagUp : Dir := ⟨1, -1⟩

/-- The four direction vectors, in the order the source iterates them. -/
def directions : List Dir := [dirHorizontal, dirVertical, dirDiagDown, dirDiagUp]

/-- Functional update of a board cell (`board[y][x] = v`). -/
def boardSet (b : Board) (x y : ℤ) (v : ℕ) : Board :=
  fun a c => if a = x ∧ c = y then v else b a c

/-! ## JS string primitives

`_matchPattern` classifies a 9-cell window by joining it with commas into a
string and scanning for substrings.  The join token of the off-board value
`-1` is the two-character string `-1`, whose second character is `1`; this
matters for the classification, so the embedding keeps the string level. -/

/-- `String(t)` for the four cell-tag values `-1, 0, 1, 2` produced by
`_getLinePattern`. -/
def tokChars (t : ℤ) : List Char :=
  if t = -1 then ['-', '1']
  else if t = 0 then ['0']
  else if t = 1 then ['1']
  else ['2']

/-- `line.join(',')` on a list of cell tags, as a list of characters. -/
def lineStr : List ℤ → List Char
  | [] => []
  | [t] => tokChars t
  | t :: u :: rest => tokChars t ++ ',' :: lineStr (u :: rest)

/-- JS `s.startsWith(pat)` on lists: `jsStartsWith pat s` is true iff `pat`
is a prefix of `s`. -/
def jsStartsWith {α : Type} [DecidableEq α] : List α → List α → Bool
  | [], _ => true
  | _ :: _, [] => false
  | a :: as, b :: bs => if a = b then jsStartsWith as bs else false

/-- JS `s.includes(pat)` on lists: `jsIncludes pat s` is true iff `pat`
occurs contiguously inside `s`. -/
def jsIncludes {α : Type} [DecidableEq α] (pat : List α) : List α → Bool
  | [] => jsStartsWith pat ([] : List α)
  | b :: rest => jsStartsWith pat (b :: rest) || jsIncludes pat rest

theorem jsStartsWith_iff {α : Type} [DecidableEq α] (pat s : List α) :
    jsStartsWith pat s = true ↔ ∃ v, s = pat ++ v := by
  induction pat generalizing s with
  | nil => simp [jsStartsWith]
  | cons a as ih =>
    cases s with
    | nil => simp [jsStartsWith]
    | cons b bs =>
      simp only [jsStartsWith]
      by_cases hab : a = b
      · subst hab
        rw [if_pos rfl]
        simp only [ih, List.cons_append, List.cons.injEq, true_and]
      · simp only [if_neg hab, List.cons_append, List.cons.injEq]
        constructor
        · intro h; exact absurd h (by simp)
        · rintro ⟨v, hv, _⟩; exact absurd hv.symm hab

theorem jsIncludes_iff {α : Type} [DecidableEq α] (pat s : List α) :
    jsIncludes pat s = true ↔ ∃ u v, s = u ++ pat ++ v := by
  induction s with
  | nil =>
    simp only [jsIncludes, jsStartsWith_iff]
    constructor
    · rintro ⟨v, hv⟩; exact ⟨[], v, hv⟩
    · rintro ⟨u, v, huv⟩
      refine ⟨v, ?_⟩
      have hu : u = [] := by
        cases u with
        | nil => rfl
        | cons x xs => simp at huv
      subst hu
      simpa using huv
  | cons b bs ih =>
    simp only [jsIncludes, Bool.or_eq_true, jsStartsWith_iff, ih]
    constructor
    · rintro (⟨v, hv⟩ | ⟨u, v, huv⟩)
      · exact ⟨[], v, by simpa using hv⟩
      · exact ⟨b :: u, v, by simp [huv]⟩
    · rintro ⟨u, v, huv⟩
      cases u with
      | nil => exact Or.inl ⟨v, by simpa using huv⟩
      | cons x xs =>
        right
        refine ⟨xs, v, ?_⟩
        have := huv
        simp only [List.cons_append] at this
        exact (List.cons.injEq _ _ _ _ ▸ this).2

/-- Substring occurrence composes. -/
theorem jsIncludes_mono {α : Type} [DecidableEq α] {p m s : List α}
    (h1 : jsIncludes p m = true) (h2 : jsIncludes m s = true) :
    jsIncludes p s = true := by
  rw [jsIncludes_iff] at h1 h2 ⊢
  obtain ⟨a, b, rfl⟩ := h1
  obtain ⟨u, v, rfl⟩ := h2
  exact ⟨u ++ a, b ++ v, by simp⟩

theorem lineStr_append (a b : List ℤ) (ha : a ≠ []) (hb : b ≠ []) :
    lineStr (a ++ b) = lineStr a ++ ',' :: lineStr b := by
  induction a with
  | nil => exact absurd rfl ha
  | cons x xs ih =>
    cases xs with
    | nil =>
      cases b with
      | nil => exact absurd rfl hb
      | cons y ys => simp [lineStr]
    | cons z zs =>
      have ih2 := ih (by simp)
      have hcons : (z :: zs : List ℤ) ++ b = z :: (zs ++ b) := rfl
      calc lineStr ((x :: z :: zs) ++ b)
          = tokChars x ++ ',' :: lineStr (z :: (zs ++ b)) := rfl
        _ = tokChars x ++ ',' :: (lineStr (z :: zs) ++ ',' :: lineStr b) := by
              rw [← hcons, ih2]
        _ = (tokChars x ++ ',' :: lineStr (z :: zs)) ++ ',' :: lineStr b := by simp
        _ = lineStr (x :: z :: zs) ++ ',' :: lineStr b := rfl

/-- If `m` occurs contiguously in `line` at the list level, then the joined
string of `m` occurs contiguously in the joined string of `line`. -/
theorem jsIncludes_lineStr {m line : List ℤ} (hm : m ≠ [])
    (h : jsIncludes m line = true) :
    jsIncludes (lineStr m) (lineStr line) = true := by
  rw [jsIncludes_iff] at h
  obtain ⟨u, v, rfl⟩ := h
  rw [jsIncludes_iff]
  rcases hu : u with _ | ⟨x, xs⟩ <;> rcases hv : v with _ | ⟨y, ys⟩
  · exact ⟨[], [], by simp⟩
  · refine ⟨[], ',' :: lineStr (y :: ys), ?_⟩
    simpa using lineStr_append m (y :: ys) hm (by simp)
  · refine ⟨lineStr (x :: xs) ++ [','], [], ?_⟩
    have := lineStr_append (x :: xs) m (by simp) hm
    simpa [List.append_assoc] using this
  · refine ⟨lineStr (x :: xs) ++ [','], ',' :: lineStr (y :: ys), ?_⟩
    have h1 : lineStr ((x :: xs) ++ (m ++ (y :: ys))) =
        lineStr (x :: xs) ++ ',' :: lineStr (m ++ (y :: ys)) :=
      lineStr_append (x :: xs) (m ++ (y :: ys)) (by simp) (by simp [hm])
    have h2 : lineStr (m ++ (y :: ys)) = lineStr m ++ ',' :: lineStr (y :: ys) :=
      lineStr_append m (y :: ys) hm (by simp)
    simp only [List.append_assoc] at h1 ⊢
    rw [h1, h2]
    simp

/-! ## Pattern matcher (`RuleEngine._getLinePattern`, `RuleEngine._matchPattern`) -/

/-- The eight pattern kinds of `RuleEngine.patterns`. -/
inductive PKind where
  | five
  | overline
  | liveFour
  | rushFour
  | liveThree
  | sleepThree
  | liveTwo
  | sleepTwo
deriving DecidableEq

/-- A matched pattern: its kind and score, as returned by `_matchPattern`. -/
structure PMatch where
  type : PKind
  score : ℤ
deriving DecidableEq

/-- Tag of one window cell, relative to `player`:
`-1` off-board, `1` own stone, `0` empty, `2` opponent. -/
def cellTag (board : Board) (player : ℕ) (nx ny : ℤ) : ℤ :=
  if nx < 0 ∨ 15 ≤ nx ∨ ny < 0 ∨ 15 ≤ ny then -1
  else if board nx ny = player then 1
  else if board nx ny = 0 then 0
  else 2

/-- `RuleEngine._getLinePattern`: the 9-cell window around `(x, y)` along
direction `d` (4 cells on the negative side, the centre, 4 on the positive
side), tagged relative to `player`.  Board bounds are the literal 15 used by
the source. -/
def _getLinePattern (board : Board) (x y : ℤ) (player : ℕ) (d : Dir) : List ℤ :=
  ((List.range 5).reverse.map fun i =>
    cellTag board player (x - d.dx * (i : ℤ)) (y - d.dy * (i : ℤ))) ++
  ((List.range 4).map fun i =>
    cellTag board player (x + d.dx * ((i : ℤ) + 1)) (y + d.dy * ((i : ℤ) + 1)))

/-- `RuleEngine._matchPattern`: joins the window with commas and scans the
resulting string for each template, in the source's order (five first).
The overline test in the source is `lineStr.match(/1,1,1,1,1,1/)`, which for
this literal regex is the same substring test as `includes`. -/
def _matchPattern (line : List ℤ) : Option PMatch :=
  let s := lineStr line
  if jsIncludes ("1,1,1,1,1".toList) s then some ⟨.five, 100000⟩
  else if jsIncludes ("1,1,1,1,1,1".toList) s then some ⟨.overline, -100000⟩
  else if jsIncludes ("0,1,1,1,1,0".toList) s then some ⟨.liveFour, 10000⟩
  else if jsIncludes ("1,1,1,1,0".toList) s || jsIncludes ("0,1,1,1,1".toList) s ||
      jsIncludes ("1,1,1,0,1".toList) s || jsIncludes ("1,0,1,1,1".toList) s then
    some ⟨.rushFour, 1000⟩
  else if jsIncludes ("0,1,1,1,0".toList) s || jsIncludes ("0,1,1,0,1,0".toList) s then
    some ⟨.liveThree, 1000⟩
  else if jsIncludes ("1,1,1,0".toList) s || jsIncludes ("0,1,1,1".toList) s ||
      jsIncludes ("1,1,0,1".toList) s || jsIncludes ("1,0,1,1".toList) s then
    some ⟨.sleepThree, 100⟩
  else if jsIncludes ("0,1,1,0".toList) s || jsIncludes ("0,1,0,1,0".toList) s then
    some ⟨.liveTwo, 100⟩
  else if jsIncludes ("1,1,0".toList) s || jsIncludes ("0,1,1".toList) s ||
      jsIncludes ("1,0,1".toList) s then
    some ⟨.sleepTwo, 10⟩
  else none

/-- A board whose only stones are four black stones at
`(0,0), (1,0), (2,0), (3,0)`: a run of exactly four, cut off on the left by
the board edge. -/
def edgeBoard : Board :=
  fun x y => if y = 0 ∧ 0 ≤ x ∧ x ≤ 3 then 1 else 0

/-- A board whose only stones are six black stones at
`(0,0) … (5,0)`: a horizontal run of exactly six. -/
def sixBoard : Board :=
  fun x y => if y = 0 ∧ 0 ≤ x ∧ x ≤ 5 then 1 else 0

/-- A board with a horizontal run of six black stones `(2,5) … (7,5)` and a
vertical run of exactly five `(5,3) … (5,7)`, both through `(5,5)`. -/
def b3 : Board :=
  fun x y => if (y = 5 ∧ 2 ≤ x ∧ x ≤ 7) ∨ (x = 5 ∧ 3 ≤ y ∧ y ≤ 7) then 1 else 0

/-! ## Rule engine: counting, win check, forbidden detection -/

/-- `GameState.isValidPosition`: `0 <= x < size` and `0 <= y < size`
(the JS integrality test is implicit in the coordinate type `ℤ`). -/
def isValidPosition (size : ℕ) (x y : ℤ) : Bool :=
  decide (0 ≤ x) && decide (x < (size : ℤ)) && decide (0 ≤ y) && decide (y < (size : ℤ))

/-- One arm of `RuleEngine._countConsecutive`: the number of consecutive
stones of `player` met walking from `(x, y)` in direction `(dx, dy)`
(indices `i = 1 … size-1`, stopping at the first off-board or
non-`player` cell). -/
def runLen (b : Board) (size : ℕ) (player : ℕ) (x y dx dy : ℤ) : ℕ :=
  (((List.range (size - 1)).map fun i => (i : ℤ) + 1).takeWhile fun i =>
    isValidPosition size (x + dx * i) (y + dy * i) &&
      decide (b (x + dx * i) (y + dy * i) = player)).length

/-- `RuleEngine._countConsecutive` (its `count` field): the centre stone
plus both arms.  The source's `leftEnd`/`rightEnd`/`isOpen` fields are not
read by `checkWin` and are omitted. -/
def _countConsecutive (b : Board) (size : ℕ) (x y : ℤ) (player : ℕ) (d : Dir) : ℕ :=
  1 + runLen b size player x y d.dx d.dy + runLen b size player x y (-d.dx) (-d.dy)

/-- `RuleEngine._getWinLine`: the centre plus up to `count - 1` same-player
cells in each direction (the backward cells are `unshift`ed, i.e. appear
most-negative-first), truncated to 5 cells. -/
def _getWinLine (b : Board) (size : ℕ) (x y : ℤ) (player : ℕ) (d : Dir) (count : ℕ) :
    List (ℤ × ℤ) :=
  let fwd := (((List.range (count - 1)).map fun i => (i : ℤ) + 1).takeWhile fun i =>
    isValidPosition size (x + d.dx * i) (y + d.dy * i) &&
      decide (b (x + d.dx * i) (y + d.dy * i) = player)).map fun i =>
        (x + d.dx * i, y + d.dy * i)
  let bwd := (((List.range (count - 1)).map fun i => (i : ℤ) + 1).takeWhile fun i =>
    isValidPosition size (x - d.dx * i) (y - d.dy * i) &&
      decide (b (x - d.dx * i) (y - d.dy * i) = player)).map fun i =>
        (x - d.dx * i, y - d.dy * i)
  (bwd.reverse ++ (x, y) :: fwd).take 5

/-- Result record of `RuleEngine.checkWin`. -/
structure WinResult where
  isWin : Bool
  isOverline : Bool
  direction : Option Dir
  count : ℕ
  winLine : Option (List (ℤ × ℤ))
  player : ℕ
deriving DecidableEq

/-- `RuleEngine.checkWin`: scan the four directions in order and return at
the first one whose contiguous run through `(x, y)` is at least 5; such a
run is a win unless it is longer than 5 and the player is black (1) and
forbidden rules are enabled, in which case it is reported as an overline. -/
def checkWin (b : Board) (size : ℕ) (rules : Bool) (x y : ℤ) (player : ℕ) : WinResult :=
  match directions.find? (fun d => decide (5 ≤ _countConsecutive b size x y player d)) with
  | some d =>
    let c := _countConsecutive b size x y player d
    let ov := decide (5 < c) && decide (player = 1) && rules
    ⟨!ov, ov, some d, c, some (_getWinLine b size x y player d c), player⟩
  | none => ⟨false, false, none, 0, none, player⟩

/-- One arm of `RuleEngine._checkOverline`'s per-direction count: board
bounds are the literal 15 and the stone value the literal 1 (black), as in
the source. -/
def overlineRun (b : Board) (x y dx dy : ℤ) : ℕ :=
  (((List.range 14).map fun i => (i : ℤ) + 1).takeWhile fun i =>
    isValidPosition 15 (x + dx * i) (y + dy * i) &&
      decide (b (x + dx * i) (y + dy * i) = 1)).length

/-- The per-direction contiguous black run through `(x, y)` counted by
`RuleEngine._checkOverline`. -/
def overlineCount (b : Board) (x y : ℤ) (d : Dir) : ℕ :=
  1 + overlineRun b x y d.dx d.dy + overlineRun b x y (-d.dx) (-d.dy)

/-- `RuleEngine._checkOverline`: the first direction whose run exceeds 5,
with its count (`none` when no direction qualifies, i.e. not an overline). -/
def _checkOverline (b : Board) (x y : ℤ) : Option (Dir × ℕ) :=
  (directions.find? fun d => decide (5 < overlineCount b x y d)).map fun d =>
    (d, overlineCount b x y d)

/-- Per-direction pattern record returned by
`RuleEngine._analyzeDirectionPatternOnBoard`. -/
structure DirPattern where
  type : PKind
  direction : Dir
  line : List ℤ
  score : ℤ
deriving DecidableEq

/-- `RuleEngine._analyzeDirectionPatternOnBoard`. -/
def _analyzeDirectionPatternOnBoard (b : Board) (x y : ℤ) (player : ℕ) (d : Dir) :
    Option DirPattern :=
  let line := _getLinePattern b x y player d
  (_matchPattern line).map fun p => ⟨p.type, d, line, p.score⟩

/-- `RuleEngine._analyzeDirectionPattern`: copies the board, places the
hypothetical stone, and analyzes. -/
def _analyzeDirectionPattern (b : Board) (x y : ℤ) (player : ℕ) (d : Dir) :
    Option DirPattern :=
  _analyzeDirectionPatternOnBoard (boardSet b x y player) x y player d

/-- `RuleEngine._checkDoubleThree`: the live-three patterns found over the
four directions (the move is a double-three when at least 2 are found). -/
def _checkDoubleThree (b : Board) (x y : ℤ) : List DirPattern :=
  directions.filterMap fun d =>
    match _analyzeDirectionPatternOnBoard b x y 1 d with
    | some p => if p.type = PKind.liveThree then some p else none
    | none => none

/-- `RuleEngine._checkDoubleFour`: the live-four or rush-four patterns
found over the four directions (a double-four when at least 2 are found). -/
def _checkDoubleFour (b : Board) (x y : ℤ) : List DirPattern :=
  directions.filterMap fun d =>
    match _analyzeDirectionPatternOnBoard b x y 1 d with
    | some p => if p.type = PKind.liveFour ∨ p.type = PKind.rushFour then some p else none
    | none => none

/-- Violation tags pushed by `RuleEngine.detectForbidden`. -/
inductive FType where
  | OVERLINE
  | DOUBLE_THREE
  | DOUBLE_FOUR
deriving DecidableEq

/-- Result record of `RuleEngine.detectForbidden`. -/
structure ForbiddenResult where
  isForbidden : Bool
  types : List FType
  primaryType : Option FType
deriving DecidableEq

/-- `RuleEngine.detectForbidden`: place a hypothetical black stone at
`(x, y)` on a copy of the board, then collect the violations in source
order (overline, double-three, double-four); forbidden iff the list is
non-empty. -/
def detectForbidden (b : Board) (x y : ℤ) : ForbiddenResult :=
  let tempBoard := boardSet b x y 1
  let types :=
    (if (_checkOverline tempBoard x y).isSome then [FType.OVERLINE] else []) ++
    (if 2 ≤ (_checkDoubleThree tempBoard x y).length then [FType.DOUBLE_THREE] else []) ++
    (if 2 ≤ (_checkDoubleFour tempBoard x y).length then [FType.DOUBLE_FOUR] else [])
  ⟨decide (types ≠ []), types, types.head?⟩

/-- Rejection reasons of `RuleEngine.validateMove`. -/
inductive VError where
  | INVALID_POSITION
  | POSITION_OCCUPIED
  | FORBIDDEN_MOVE
deriving DecidableEq

/-- `RuleEngine.validateMove` (`none` = valid): out-of-bounds, then
occupied, then — only when forbidden rules are enabled and the current
player is black (1) — the forbidden check. -/
def validateMove (b : Board) (size : ℕ) (rules : Bool) (currentPlayer : ℕ) (x y : ℤ) :
    Option VError :=
  if ¬ isValidPosition size x y = true then some VError.INVALID_POSITION
  else if b x y ≠ 0 then some VError.POSITION_OCCUPIED
  else if rules = true ∧ currentPlayer = 1 ∧ (detectForbidden b x y).isForbidden = true then
    some VError.FORBIDDEN_MOVE
  else none

/-! ## Pattern statistics (`analyzePattern`, `evaluatePosition`) -/

/-- The per-kind counters of `RuleEngine.analyzePattern`. -/
structure PatternCount where
  five : ℕ
  overline : ℕ
  liveFour : ℕ
  rushFour : ℕ
  liveThree : ℕ
  sleepThree : ℕ
  liveTwo : ℕ
  sleepTwo : ℕ
deriving DecidableEq

def PatternCount.zero : PatternCount := ⟨0, 0, 0, 0, 0, 0, 0, 0⟩

/-- Increment the counter of one pattern kind. -/
def PatternCount.bump (pc : PatternCount) : PKind → PatternCount
  | .five => { pc with five := pc.five + 1 }
  | .overline => { pc with overline := pc.overline + 1 }
  | .liveFour => { pc with liveFour := pc.liveFour + 1 }
  | .rushFour => { pc with rushFour := pc.rushFour + 1 }
  | .liveThree => { pc with liveThree := pc.liveThree + 1 }
  | .sleepThree => { pc with sleepThree := pc.sleepThree + 1 }
  | .liveTwo => { pc with liveTwo := pc.liveTwo + 1 }
  | .sleepTwo => { pc with sleepTwo := pc.sleepTwo + 1 }

/-- `RuleEngine._calculatePositionScore`: weighted sum of the counters. -/
def _calculatePositionScore (pc : PatternCount) : ℤ :=
  100000 * (pc.five : ℤ) + (-100000) * (pc.overline : ℤ) + 10000 * (pc.liveFour : ℤ) +
    1000 * (pc.rushFour : ℤ) + 1000 * (pc.liveThree : ℤ) + 100 * (pc.sleepThree : ℤ) +
    100 * (pc.liveTwo : ℤ) + 10 * (pc.sleepTwo : ℤ)

/-- Result record of `RuleEngine.analyzePattern`. -/
structure Analysis where
  patterns : List DirPattern
  patternCount : PatternCount
  score : ℤ

/-- `RuleEngine.analyzePattern`: analyze the four directions (with the
stone hypothetically placed for `player`), count pattern kinds, and score. -/
def analyzePattern (b : Board) (x y : ℤ) (player : ℕ) : Analysis :=
  let patterns := directions.filterMap fun d => _analyzeDirectionPattern b x y player d
  let pc := patterns.foldl (fun pc p => pc.bump p.type) PatternCount.zero
  ⟨patterns, pc, _calculatePositionScore pc⟩

/-- `RuleEngine.evaluatePosition`. -/
def evaluatePosition (b : Board) (x y : ℤ) (player : ℕ) : ℤ :=
  (analyzePattern b x y player).score

/-! ## Moves and `getAvailableMoves` -/

/-- A history entry as built by `GameState.applyMove` (the `timestamp`
is the `Date.now()` value passed in by the caller of the embedding). -/
structure Move where
  x : ℤ
  y : ℤ
  player : ℕ
  step : ℕ
  timestamp : ℕ
  moveNumber : ℕ
deriving DecidableEq

/-- The offsets `-range … range` of the candidate loops. -/
def offsets (range : ℕ) : List ℤ :=
  (List.range (2 * range + 1)).map fun (i : ℕ) => (i : ℤ) - (range : ℤ)

/-- The candidate cells of `RuleEngine.getAvailableMoves`, in iteration
order (history entry outer, `dx` middle, `dy` inner). -/
def gamCandidates (history : List Move) (range : ℕ) : List (ℤ × ℤ) :=
  history.flatMap fun m =>
    (offsets range).flatMap fun dx =>
      (offsets range).map fun dy => (m.x + dx, m.y + dy)

/-- One iteration of the candidate loop of `getAvailableMoves`: the state
is the `searched` set (a list of coordinate pairs; the source keys the set
by the string `x + "," + y`, which is injective on integer pairs) together
with the accumulated result. -/
def gamStep (b : Board) (size : ℕ) (rules : Bool) (cp : ℕ) (includeForbidden : Bool)
    (st : List (ℤ × ℤ) × List (ℤ × ℤ)) (c : ℤ × ℤ) : List (ℤ × ℤ) × List (ℤ × ℤ) :=
  if c ∈ st.1 then st
  else if ¬ isValidPosition size c.1 c.2 = true then (c :: st.1, st.2)
  else if b c.1 c.2 ≠ 0 then (c :: st.1, st.2)
  else if ¬ includeForbidden = true ∧ rules = true ∧ cp = 1 ∧
      (detectForbidden b c.1 c.2).isForbidden = true then (c :: st.1, st.2)
  else (c :: st.1, st.2 ++ [c])

/-- A cell is within Chebyshev distance `range` of some history move. -/
def chebWithin (history : List Move) (range : ℕ) (p : ℤ × ℤ) : Prop :=
  ∃ m ∈ history, |p.1 - m.x| ≤ (range : ℤ) ∧ |p.2 - m.y| ≤ (range : ℤ)

/-- The conditions C8 asserts of every cell returned by
`getAvailableMoves` on a non-empty history: empty, in-bounds, and within
Chebyshev distance `range` of some history move. -/
def gamGood (b : Board) (size : ℕ) (history : List Move) (range : ℕ) (p : ℤ × ℤ) : Prop :=
  isValidPosition size p.1 p.2 = true ∧ b p.1 p.2 = 0 ∧ chebWithin history range p

/-- `RuleEngine.getAvailableMoves`: the centre cell when the history is
empty, otherwise the empty in-bounds cells (not forbidden, when that filter
applies) within Chebyshev distance `range` of a historical move,
deduplicated by the `searched` set. -/
def getAvailableMoves (b : Board) (size : ℕ) (rules : Bool) (cp : ℕ) (history : List Move)
    (range : ℕ) (includeForbidden : Bool) : List (ℤ × ℤ) :=
  if history.length = 0 then
    [((size / 2 : ℕ), (size / 2 : ℕ))]
  else
    ((gamCandidates history range).foldl (gamStep b size rules cp includeForbidden)
      ([], [])).2

/-! ## Game state (`GameState`) -/

/-- `GameState.gameStatus` values. -/
inductive GStatus where
  | ready
  | playing
  | finished
  | paused
deriving DecidableEq

/-- The `GameState` fields read or written by the embedded operations
(`applyMove`, `undoMove`, `switchPlayer`) and by the rule/AI engines.
The purely cosmetic settings (sounds, hints, …), timing metadata other
than `startTime`, and the `forbiddenMoves` display set are not read by
any embedded operation and are omitted. -/
structure GameState where
  boardSize : ℕ
  board : Board
  currentPlayer : ℕ
  moveHistory : List Move
  gameStatus : GStatus
  winner : Option ℕ
  moveCount : ℕ
  startTime : Option ℕ
  forbiddenRules : Bool

/-- `GameState.reset` (with the default 15×15 board and the default
settings, `forbiddenRules: true`). -/
def resetState : GameState where
  boardSize := 15
  board := fun _ _ => 0
  currentPlayer := 1
  moveHistory := []
  gameStatus := GStatus.ready
  winner := none
  moveCount := 0
  startTime := none
  forbiddenRules := true

/-- `GameState.applyMove` (`none` models the JS throw, which happens before
any mutation; `now` is the `Date.now()` reading).  On success it returns
the recorded move and the updated state. -/
def applyMove (s : GameState) (x y : ℤ) (now : ℕ) : Option (Move × GameState) :=
  if ¬ isValidPosition s.boardSize x y = true then none
  else if s.board x y ≠ 0 then none
  else if s.gameStatus ≠ GStatus.playing ∧ s.gameStatus ≠ GStatus.ready then none
  else
    let move : Move :=
      ⟨x, y, s.currentPlayer, s.moveCount + 1, now, s.moveHistory.length + 1⟩
    some (move,
      { s with
        board := boardSet s.board x y s.currentPlayer
        moveHistory := s.moveHistory ++ [move]
        moveCount := s.moveCount + 1
        gameStatus := if s.gameStatus = GStatus.ready then GStatus.playing else s.gameStatus
        startTime := if s.gameStatus = GStatus.ready then some now else s.startTime })

/-- `GameState.undoMove` (`none` models the `success: false` return on an
empty history).  Pops the last move, clears its cell, and restores the
player who made it. -/
def undoMove (s : GameState) : Option (Move × GameState) :=
  match s.moveHistory.getLast? with
  | none => none
  | some lastMove =>
    let hist := s.moveHistory.dropLast
    some (lastMove,
      { s with
        moveHistory := hist
        board := boardSet s.board lastMove.x lastMove.y 0
        moveCount := s.moveCount - 1
        gameStatus := if hist.length = 0 then GStatus.ready else s.gameStatus
        startTime := if hist.length = 0 then none else s.startTime
        winner := if hist.length = 0 then none else s.winner
        currentPlayer := lastMove.player })

/-- `GameState.switchPlayer`. -/
def switchPlayer (s : GameState) : GameState :=
  { s with currentPlayer := if s.currentPlayer = 1 then 2 else 1 }

/-- The number of non-empty cells of the board (the quantity
`board.flat().filter(cell => cell !== 0).length` of
`GameState.validateState`). -/
def countPieces (s : GameState) : ℕ :=
  (((Finset.Icc (0 : ℤ) ((s.boardSize : ℤ) - 1)) ×ˢ
    (Finset.Icc (0 : ℤ) ((s.boardSize : ℤ) - 1))).filter fun p =>
      s.board p.1 p.2 ≠ 0).card

/-- An operation of the C5 invariant: a (possibly failing) `applyMove`
with its coordinates and timestamp, or an `undoMove`. -/
inductive GOp where
  | apply (x y : ℤ) (now : ℕ)
  | undo
deriving DecidableEq

/-- Run one operation; a failed operation leaves the state unchanged
(the JS throw / early return happens before any mutation). -/
def stepOp (s : GameState) : GOp → GameState
  | GOp.apply x y now =>
    match applyMove s x y now with
    | some (_, s') => s'
    | none => s
  | GOp.undo =>
    match undoMove s with
    | some (_, s') => s'
    | none => s

/-- Run a sequence of operations from a state. -/
def execOps (s : GameState) : List GOp → GameState
  | [] => s
  | op :: ops => execOps (stepOp s op) ops

/-- The position of a history entry. -/
def Move.pos (m : Move) : ℤ × ℤ := (m.x, m.y)

/-- The consistency invariant tying the board to the move history:
the current player is a stone colour, history positions are pairwise
distinct and in bounds, each history entry's cell holds its stone, and
every non-empty cell is a history position. -/
def StateInv (s : GameState) : Prop :=
  s.currentPlayer ≠ 0 ∧
  (s.moveHistory.map Move.pos).Nodup ∧
  (∀ m ∈ s.moveHistory,
    isValidPosition s.boardSize m.x m.y = true ∧ s.board m.x m.y = m.player ∧ m.player ≠ 0) ∧
  (∀ x y : ℤ, s.board x y ≠ 0 → (x, y) ∈ s.moveHistory.map Move.pos)

/-! ## AI engine (`AIEngine`) with an explicit allocation store

The no-mutation claim C9 is about object identity: the search must write
only to the board arrays / history arrays / state objects it allocates via
`getSnapshot` clones, never to the caller's.  To make that expressible, the
AI embedding threads an explicit store (`AIHeap`) of allocated board
arrays, history arrays and state objects; references are indices.  JS
destructuring of intermediate results is modelled by `.1`/`.2`
projections.  The numeric type: scores are exact rationals (the source's
float weight `0.8` becomes `4/5`) extended with the `±Infinity` sentinels
the source uses for alpha/beta and best-score initialisation (`XQ`).
Wall-clock time-limit checks (`performance.now() - startTime > timeLimit`)
are modelled by an oracle list of booleans consumed one per check, and
`Math.random` of the beginner strategy by an oracle number; neither affects
which stores are written. -/

/-- JS number as used by the search: an exact rational or `±Infinity`. -/
inductive XQ where
  | ninf
  | fin (q : ℚ)
  | pinf
deriving DecidableEq

/-- JS `<` on `XQ`. -/
def XQ.ltb : XQ → XQ → Bool
  | _, XQ.ninf => false
  | XQ.ninf, _ => true
  | XQ.fin a, XQ.fin b => decide (a < b)
  | XQ.fin _, XQ.pinf => true
  | XQ.pinf, _ => false

/-- JS `<=` on `XQ`. -/
def XQ.leb (a b : XQ) : Bool := !(XQ.ltb b a)

/-- `Math.max`. -/
def XQ.maxx (a b : XQ) : XQ := if XQ.ltb a b then b else a

/-- `Math.min`. -/
def XQ.minx (a b : XQ) : XQ := if XQ.ltb b a then b else a

/-- The four difficulty tiers of `AIEngine.DIFFICULTY`. -/
inductive Difficulty where
  | BEGINNER
  | NORMAL
  | HARD
  | HELL
deriving DecidableEq

/-- A game-state object: scalar fields plus references into the stores for
its board array and move-history array. -/
structure GSObj where
  boardRef : ℕ
  histRef : ℕ
  boardSize : ℕ
  currentPlayer : ℕ
  gameStatus : GStatus
  winner : Option ℕ
  moveCount : ℕ
  startTime : Option ℕ
  forbiddenRules : Bool
deriving DecidableEq

instance : Inhabited GSObj :=
  ⟨⟨0, 0, 15, 1, GStatus.ready, none, 0, none, true⟩⟩

/-- The allocation store: all live state objects, board arrays and history
arrays, addressed by index. -/
structure AIHeap where
  objs : List GSObj
  boards : List Board
  hists : List (List Move)

def heapBoard (h : AIHeap) (i : ℕ) : Board := h.boards.getD i (fun _ _ => 0)

def heapHist (h : AIHeap) (i : ℕ) : List Move := h.hists.getD i []

def objAt (h : AIHeap) (r : ℕ) : GSObj := h.objs.getD r default

/-- The value-level `GameState` denoted by an object under a heap. -/
def readState (h : AIHeap) (o : GSObj) : GameState :=
  ⟨o.boardSize, heapBoard h o.boardRef, o.currentPlayer, heapHist h o.histRef,
    o.gameStatus, o.winner, o.moveCount, o.startTime, o.forbiddenRules⟩

/-- `GameState.getSnapshot`: allocates fresh copies of the board array
(`this.board.map(row => [...row])`) and the history array
(`[...this.moveHistory]`) and returns an object value holding the fresh
references (plus the copied scalar fields). -/
def getSnapshotAlloc (h : AIHeap) (o : GSObj) : AIHeap × GSObj :=
  (⟨h.objs, h.boards ++ [heapBoard h o.boardRef], h.hists ++ [heapHist h o.histRef]⟩,
    { o with boardRef := h.boards.length, histRef := h.hists.length })

/-- `AIEngine._createTempState`: `Object.assign` of a fresh snapshot onto a
new object; returns the new object's reference. -/
def _createTempState (h : AIHeap) (r : ℕ) : AIHeap × ℕ :=
  let ho := getSnapshotAlloc h (objAt h r)
  (⟨ho.1.objs ++ [ho.2], ho.1.boards, ho.1.hists⟩, ho.1.objs.length)

/-- `tempState.currentPlayer = p` (a write to the object at `r`). -/
def setPlayerH (h : AIHeap) (r : ℕ) (p : ℕ) : AIHeap :=
  ⟨h.objs.set r { objAt h r with currentPlayer := p }, h.boards, h.hists⟩

/-- `GameState.applyMove` invoked on the object at `r`: delegates to the
value-level `applyMove` and writes the updated board array, history array
and scalar fields back through the object's references.  A failed apply
(the JS throw) leaves the heap unchanged. -/
def applyMoveH (h : AIHeap) (r : ℕ) (x y : ℤ) (now : ℕ) : AIHeap × Bool :=
  let o := objAt h r
  match applyMove (readState h o) x y now with
  | none => (h, false)
  | some (_, s') =>
    let o' : GSObj :=
      { o with
        gameStatus := s'.gameStatus
        moveCount := s'.moveCount
        startTime := s'.startTime }
    (⟨h.objs.set r o', h.boards.set o.boardRef s'.board,
      h.hists.set o.histRef s'.moveHistory⟩, true)

/-- `ruleEngine.getAvailableMoves(gameState, { range })` on the object at
`r` — a pure read. -/
def getAvailableMovesH (h : AIHeap) (r : ℕ) (range : ℕ) : List (ℤ × ℤ) :=
  let s := readState h (objAt h r)
  getAvailableMoves s.board s.boardSize s.forbiddenRules s.currentPlayer s.moveHistory
    range false

/-- `AIEngine._evaluatePosition`: ±100000 on a decided winner, otherwise
the signed sum of `analyzePattern` scores over every occupied cell plus the
centrality bonus of the last move. -/
def aiEvaluatePosition (s : GameState) (lastX lastY : ℤ) : ℤ :=
  let player := s.currentPlayer
  let opponent := if player = 1 then 2 else 1
  if s.winner = some player then 100000
  else if s.winner = some opponent then -100000
  else
    let base := ((List.range s.boardSize).flatMap fun (xi : ℕ) =>
      (List.range s.boardSize).map fun (yi : ℕ) => ((xi : ℤ), (yi : ℤ))).foldl
      (fun acc p =>
        let piece := s.board p.1 p.2
        if piece = 0 then acc
        else acc + (if piece = player then 1 else -1) *
          (analyzePattern s.board p.1 p.2 piece).score) 0
    base + (14 - (|lastX - 7| + |lastY - 7|)) * 10

/-- `AIEngine._evaluateBasicPosition`: own score plus 0.8 times the
opponent's score on a temp state with the player switched. -/
def _evaluateBasicPosition (h : AIHeap) (r : ℕ) (x y : ℤ) : AIHeap × ℚ :=
  let player := (objAt h r).currentPlayer
  let opponent := if player = 1 then 2 else 1
  let myScore := evaluatePosition (heapBoard h (objAt h r).boardRef) x y player
  let h1 := (_createTempState h r).1
  let tr := (_createTempState h r).2
  let h2 := setPlayerH h1 tr opponent
  let oppScore := evaluatePosition (heapBoard h2 (objAt h2 tr).boardRef) x y opponent
  (h2, (myScore : ℚ) + (oppScore : ℚ) * (4 / 5))

/-- Scoring loop over the candidate moves (the `availableMoves.map` that
precedes the sort in `_minimaxSearch` and `_beginnerStrategy`). -/
def scoreMoves (h : AIHeap) (r : ℕ) : List (ℤ × ℤ) → AIHeap × List ((ℤ × ℤ) × ℚ)
  | [] => (h, [])
  | mv :: rest =>
    let hsc := _evaluateBasicPosition h r mv.1 mv.2
    let hrest := scoreMoves hsc.1 r rest
    (hrest.1, (mv, hsc.2) :: hrest.2)

/-- Result record of `_minimaxSearch` / `_threatSpaceSearch`. -/
structure MMRes where
  position : Option (ℤ × ℤ)
  score : XQ
  nodesSearched : ℕ

/-- Loop state of `_minimaxSearch`'s candidate loop. -/
structure MMAcc where
  heap : AIHeap
  tl : List Bool
  alpha : XQ
  beta : XQ
  bestScore : XQ
  bestMove : Option (ℤ × ℤ)
  nodes : ℕ
  stopped : Bool

/-- The candidate loop of `_minimaxSearch`.  `recur` is the recursive call
at `depth - 1` (never invoked when `leaf` is true, i.e. at `depth = 0`);
one timeout-oracle boolean is consumed per iteration; `stopped` models the
JS `break` (time limit or beta cutoff). -/
def mmLoopAux (recur : AIHeap → List Bool → ℕ → XQ → XQ → AIHeap × List Bool × MMRes)
    (isMax : Bool) (leaf : Bool) (r : ℕ) :
    List ((ℤ × ℤ) × ℚ) → MMAcc → MMAcc
  | [], acc => acc
  | (mv, _) :: rest, acc =>
    if acc.stopped then acc
    else if acc.tl.headD false then { acc with tl := acc.tl.tail, stopped := true }
    else
      let h1 := (_createTempState acc.heap r).1
      let tr := (_createTempState acc.heap r).2
      let h2 := (applyMoveH h1 tr mv.1 mv.2 0).1
      let leafHit := leaf ∨ (objAt h2 tr).gameStatus = GStatus.finished
      let h3 := if leafHit then h2 else (recur h2 acc.tl.tail tr acc.alpha acc.beta).1
      let tl3 := if leafHit then acc.tl.tail
        else (recur h2 acc.tl.tail tr acc.alpha acc.beta).2.1
      let score := if leafHit then
          XQ.fin ((aiEvaluatePosition (readState h2 (objAt h2 tr)) mv.1 mv.2 : ℤ) : ℚ)
        else (recur h2 acc.tl.tail tr acc.alpha acc.beta).2.2.score
      let n2 := if leafHit then acc.nodes + 1
        else acc.nodes + 1 + (recur h2 acc.tl.tail tr acc.alpha acc.beta).2.2.nodesSearched
      let better := if isMax then XQ.ltb acc.bestScore score else XQ.ltb score acc.bestScore
      let bestScore' := if better then score else acc.bestScore
      let bestMove' := if better then some mv else acc.bestMove
      let alpha' := if isMax then XQ.maxx acc.alpha score else acc.alpha
      let beta' := if isMax then acc.beta else XQ.minx acc.beta score
      mmLoopAux recur isMax leaf r rest
        ⟨h3, tl3, alpha', beta', bestScore', bestMove', n2, XQ.leb beta' alpha'⟩

/-- The body of `_minimaxSearch` at one depth: candidate generation,
scoring, sorting (JS `sort` by score, descending when maximizing), then the
candidate loop. -/
def mmRun (recur : AIHeap → List Bool → ℕ → XQ → XQ → AIHeap × List Bool × MMRes)
    (leaf : Bool) (isMax : Bool) (h : AIHeap) (tl : List Bool) (r : ℕ)
    (alpha beta : XQ) : AIHeap × List Bool × MMRes :=
  let moves := getAvailableMovesH h r 2
  if moves.isEmpty then (h, tl, ⟨none, XQ.fin 0, 0⟩)
  else
    let hscored := scoreMoves h r moves
    let sorted := hscored.2.mergeSort fun a b =>
      if isMax then decide (b.2 ≤ a.2) else decide (a.2 ≤ b.2)
    let accf := mmLoopAux recur isMax leaf r sorted
      ⟨hscored.1, tl, alpha, beta, if isMax then XQ.ninf else XQ.pinf, none, 0, false⟩
    (accf.heap, accf.tl, ⟨accf.bestMove, accf.bestScore, accf.nodes⟩)

/-- `AIEngine._minimaxSearch`, by recursion on the remaining depth. -/
def _minimaxSearch : ℕ → Bool → AIHeap → List Bool → ℕ → XQ → XQ →
    AIHeap × List Bool × MMRes
  | 0, isMax, h, tl, r, a, b =>
    mmRun (fun h' tl' _ _ _ => (h', tl', ⟨none, XQ.fin 0, 0⟩)) true isMax h tl r a b
  | d + 1, isMax, h, tl, r, a, b =>
    mmRun (fun h' tl' r' a' b' => _minimaxSearch d (!isMax) h' tl' r' a' b')
      false isMax h tl r a b

/-- One entry of `_analyzeThreats`' result lists. -/
structure Threat where
  position : ℤ × ℤ
  score : ℤ
  isWin : Bool
deriving DecidableEq

/-- The three threat buckets of `_analyzeThreats`. -/
structure Threats where
  critical : List Threat
  serious : List Threat
  moderate : List Threat
deriving DecidableEq

/-- The candidate loop of `_analyzeThreats`: simulate the opponent playing
each candidate on a temp state and classify the created threat. -/
def threatLoop (r : ℕ) : List (ℤ × ℤ) → AIHeap → Threats → AIHeap × Threats
  | [], h, acc => (h, acc)
  | mv :: rest, h, acc =>
    let opponent := if (objAt h r).currentPlayer = 1 then 2 else 1
    let h1 := (_createTempState h r).1
    let tr := (_createTempState h r).2
    let h2 := setPlayerH h1 tr opponent
    let h3 := (applyMoveH h2 tr mv.1 mv.2 0).1
    let ts := readState h3 (objAt h3 tr)
    let wc := checkWin ts.board ts.boardSize ts.forbiddenRules mv.1 mv.2 opponent
    let an := analyzePattern ts.board mv.1 mv.2 opponent
    let th : Threat := ⟨mv, an.score, wc.isWin⟩
    let acc' :=
      if wc.isWin = true then { acc with critical := acc.critical ++ [th] }
      else if 0 < an.patternCount.liveFour ∨ 1 < an.patternCount.rushFour then
        { acc with serious := acc.serious ++ [th] }
      else if 1 < an.patternCount.liveThree then
        { acc with moderate := acc.moderate ++ [th] }
      else acc
    threatLoop r rest h3 acc'

/-- `AIEngine._analyzeThreats`. -/
def _analyzeThreats (h : AIHeap) (r : ℕ) : AIHeap × Threats :=
  threatLoop r (getAvailableMovesH h r 2) h ⟨[], [], []⟩

/-- The pairwise combinations (`i < j`) of serious threats. -/
def seriousPairs : List Threat → List (List (ℤ × ℤ))
  | [] => []
  | a :: rest => (rest.map fun b => [a.position, b.position]) ++ seriousPairs rest

/-- `AIEngine._generateThreatSequences`. -/
def _generateThreatSequences (t : Threats) : List (List (ℤ × ℤ)) :=
  (t.critical.map fun th => [th.position]) ++ seriousPairs t.serious

/-- The move loop of `_evaluateSequence`: each move is applied to a fresh
temp state cloned from the previous one (`cur`), accumulating pattern
scores. -/
def seqLoop : List (ℤ × ℤ) → AIHeap → ℕ → ℤ → AIHeap × ℤ
  | [], h, _, total => (h, total)
  | mv :: rest, h, cur, total =>
    let h1 := (_createTempState h cur).1
    let tr := (_createTempState h cur).2
    let h2 := (applyMoveH h1 tr mv.1 mv.2 0).1
    let ts := readState h2 (objAt h2 tr)
    let an := analyzePattern ts.board mv.1 mv.2 ts.currentPlayer
    seqLoop rest h2 tr (total + an.score)

/-- `AIEngine._evaluateSequence` (starting from the live state at `r`). -/
def _evaluateSequence (h : AIHeap) (r : ℕ) (seq : List (ℤ × ℤ)) : AIHeap × ℤ :=
  seqLoop seq h r 0

/-- Loop state of `_threatSpaceSearch`'s sequence loop. -/
structure TSAcc where
  heap : AIHeap
  tl : List Bool
  bestScore : XQ
  bestMove : Option (ℤ × ℤ)
  nodes : ℕ
  stopped : Bool

/-- The sequence loop of `_threatSpaceSearch` (`sequence[0]` is the chosen
move of the best sequence; sequences are built non-empty). -/
def tssLoop (r : ℕ) : List (List (ℤ × ℤ)) → TSAcc → TSAcc
  | [], acc => acc
  | seq :: rest, acc =>
    if acc.stopped then acc
    else if acc.tl.headD false then { acc with tl := acc.tl.tail, stopped := true }
    else
      let hsc := _evaluateSequence acc.heap r seq
      let better := XQ.ltb acc.bestScore (XQ.fin (hsc.2 : ℚ))
      tssLoop r rest
        ⟨hsc.1, acc.tl.tail, if better then XQ.fin (hsc.2 : ℚ) else acc.bestScore,
          if better then some (seq.headD (0, 0)) else acc.bestMove, acc.nodes + 1, false⟩

/-- `AIEngine._threatSpaceSearch`. -/
def _threatSpaceSearch (h : AIHeap) (tl : List Bool) (r : ℕ) :
    AIHeap × List Bool × MMRes :=
  let hth := _analyzeThreats h r
  let seqs := _generateThreatSequences hth.2
  let accf := tssLoop r seqs ⟨hth.1, tl, XQ.ninf, none, 0, false⟩
  (accf.heap, accf.tl, ⟨accf.bestMove, accf.bestScore, accf.nodes⟩)

/-- Result of a strategy (`none` models a thrown error, e.g. no available
moves). -/
structure AIRes where
  position : Option (ℤ × ℤ)
  score : XQ
  nodesSearched : ℕ

/-- `AIEngine._beginnerStrategy`: score, sort descending, take the top half
(`Math.ceil(n / 2)`), pick by the random oracle. -/
def _beginnerStrategy (h : AIHeap) (rand : ℕ) (r : ℕ) : AIHeap × Option AIRes :=
  let moves := getAvailableMovesH h r 2
  if moves.isEmpty then (h, none)
  else
    let hscored := scoreMoves h r moves
    let sorted := hscored.2.mergeSort fun a b => decide (b.2 ≤ a.2)
    let top := sorted.take ((sorted.length + 1) / 2)
    let sel := top.getD (rand % top.length) ((0, 0), 0)
    (hscored.1, some ⟨some sel.1, XQ.fin sel.2, 0⟩)

/-- `AIEngine._normalStrategy`: minimax at depth 2. -/
def _normalStrategy (h : AIHeap) (tl : List Bool) (r : ℕ) : AIHeap × Option AIRes :=
  let res := _minimaxSearch 2 true h tl r XQ.ninf XQ.pinf
  (res.1, some ⟨res.2.2.position, res.2.2.score, res.2.2.nodesSearched⟩)

/-- `AIEngine._hardStrategy`: play the first critical threat if any, else
minimax at depth 3. -/
def _hardStrategy (h : AIHeap) (tl : List Bool) (r : ℕ) : AIHeap × Option AIRes :=
  let hth := _analyzeThreats h r
  match hth.2.critical with
  | c :: _ => (hth.1, some ⟨some c.position, XQ.fin (c.score : ℚ), 0⟩)
  | [] =>
    let res := _minimaxSearch 3 true hth.1 tl r XQ.ninf XQ.pinf
    (res.1, some ⟨res.2.2.position, res.2.2.score, res.2.2.nodesSearched⟩)

/-- `AIEngine._hellStrategy`: threat-space search. -/
def _hellStrategy (h : AIHeap) (tl : List Bool) (r : ℕ) : AIHeap × Option AIRes :=
  let res := _threatSpaceSearch h tl r
  (res.1, some ⟨res.2.2.position, res.2.2.score, res.2.2.nodesSearched⟩)

/-- `AIEngine.calculateBestMove`: records `currentThinking` (whose
`gameState:` field is a fresh `getSnapshot()` of the live state — an
allocation, never a write to the live arrays), then dispatches on the
difficulty tier.  `tl` is the timeout oracle, `rand` the random oracle. -/
def calculateBestMove (h : AIHeap) (tl : List Bool) (rand : ℕ) (r : ℕ)
    (difficulty : Difficulty) : AIHeap × Option AIRes :=
  let h0 := (getSnapshotAlloc h (objAt h r)).1
  match difficulty with
  | Difficulty.BEGINNER => _beginnerStrategy h0 rand r
  | Difficulty.NORMAL => _normalStrategy h0 tl r
  | Difficulty.HARD => _hardStrategy h0 tl r
  | Difficulty.HELL => _hellStrategy h0 tl r

/-! ## Frame predicates for C9 -/

/-- The first `no` objects, `nb` boards and `nh` histories of `h` survive
unchanged into `h'` (and `h'` is at least that large). -/
def FrameBelow (no nb nh : ℕ) (h h' : AIHeap) : Prop :=
  no ≤ h'.objs.length ∧ nb ≤ h'.boards.length ∧ nh ≤ h'.hists.length ∧
  (∀ i, i < no → h'.objs.get? i = h.objs.get? i) ∧
  (∀ i, i < nb → h'.boards.get? i = h.boards.get? i) ∧
  (∀ i, i < nh → h'.hists.get? i = h.hists.get? i)

/-- The heap is at least `no`/`nb`/`nh` large. -/
def LenOK (no nb nh : ℕ) (h : AIHeap) : Prop :=
  no ≤ h.objs.length ∧ nb ≤ h.boards.length ∧ nh ≤ h.hists.length

/-- The object at `r` is a temp allocated after the protected prefix: its
own index and both its array references lie at or above the bounds (and
inside the heap). -/
def TempOK (no nb nh : ℕ) (h : AIHeap) (r : ℕ) : Prop :=
  no ≤ r ∧ r < h.objs.length ∧
  nb ≤ (objAt h r).boardRef ∧ (objAt h r).boardRef < h.boards.length ∧
  nh ≤ (objAt h r).histRef ∧ (objAt h r).histRef < h.hists.length

/-- C1: refuted by the code.  On a board whose only stones are black at
`(0,0)…(3,0)` — a run of exactly four own stones cut off on the left by the
board edge — the horizontal 9-cell window at `(3,0)` is
`[-1, 1, 1, 1, 1, 0, 0, 0, 0]` (the `-1` is the off-board tag), yet
`_matchPattern` classifies it as `five`: the window joins to the string
`"-1,1,1,1,1,0,0,0,0"`, and the trailing `1` character of the off-board
token `-1` completes the `"1,1,1,1,1"` template.  The off-board tag
therefore does not act only as a blocking value. -/
theorem c1_edge_four_classified_five :
    _getLinePattern edgeBoard 3 0 1 dirHorizontal = [-1, 1, 1, 1, 1, 0, 0, 0, 0] ∧
    ((_getLinePattern edgeBoard 3 0 1 dirHorizontal).count 1 = 4 ∧
      (_getLinePattern edgeBoard 3 0 1 dirHorizontal).head? = some (-1)) ∧
    _matchPattern (_getLinePattern edgeBoard 3 0 1 dirHorizontal) =
      some ⟨PKind.five, 100000⟩ := by
  decide

/-- C2, counterexample: the horizontal window at `(4,0)` on a board with six
contiguous black stones `(0,0)…(5,0)` contains six contiguous own cells, but
`_matchPattern` classifies it as `five` (score 100000), not `overline`:
the source checks the five template first, so the overline branch is
unreachable. -/
theorem c2_counterexample :
    jsIncludes ([1, 1, 1, 1, 1, 1] : List ℤ)
      (_getLinePattern sixBoard 4 0 1 dirHorizontal) = true ∧
    _matchPattern (_getLinePattern sixBoard 4 0 1 dirHorizontal) =
      some ⟨PKind.five, 100000⟩ ∧
    _matchPattern (_getLinePattern sixBoard 4 0 1 dirHorizontal) ≠
      some ⟨PKind.overline, -100000⟩ := by
  decide

/-- C2, amended: `_matchPattern` checks five before overline, so every
window that contains six or more contiguous own cells is classified as
`five`, never as `overline` (the overline template is unreachable). -/
theorem c2_amended_six_run_is_five (line : List ℤ)
    (h : jsIncludes ([1, 1, 1, 1, 1, 1] : List ℤ) line = true) :
    _matchPattern line = some ⟨PKind.five, 100000⟩ := by
  have hs : jsIncludes ("1,1,1,1,1,1".toList) (lineStr line) = true := by
    have h6 : lineStr [(1 : ℤ), 1, 1, 1, 1, 1] = "1,1,1,1,1,1".toList := by decide
    have := @jsIncludes_lineStr [1, 1, 1, 1, 1, 1] line (by simp) h
    rwa [h6] at this
  have h5 : jsIncludes ("1,1,1,1,1".toList) (lineStr line) = true :=
    jsIncludes_mono (by decide) hs
  unfold _matchPattern
  simp only [h5, if_true]

/-- C2, witness: the amended theorem applied to the concrete six-run
window `[1,1,1,1,1,1,0,0,0]`. -/
theorem c2_witness :
    _matchPattern [1, 1, 1, 1, 1, 1, 0, 0, 0] = some ⟨PKind.five, 100000⟩ :=
  c2_amended_six_run_is_five [1, 1, 1, 1, 1, 1, 0, 0, 0] (by decide)

/-! ## Win check (C3) -/

theorem ovb_true_iff (c p : ℕ) (r : Bool) :
    ((decide (5 < c) && decide (p = 1) && r) = true) ↔ (5 < c ∧ p = 1 ∧ r = true) := by
  simp [and_assoc]

theorem ovb_false_iff (c p : ℕ) (r : Bool) :
    ((decide (5 < c) && decide (p = 1) && r) = false) ↔ ¬(5 < c ∧ p = 1 ∧ r = true) := by
  rw [← Bool.not_eq_true, ovb_true_iff]

theorem checkWin_found0 (b : Board) (size : ℕ) (rules : Bool) (x y : ℤ) (player : ℕ)
    (h0 : 5 ≤ _countConsecutive b size x y player dirHorizontal) :
    (checkWin b size rules x y player).isWin =
      !(decide (5 < _countConsecutive b size x y player dirHorizontal) &&
        decide (player = 1) && rules) ∧
    (checkWin b size rules x y player).isOverline =
      (decide (5 < _countConsecutive b size x y player dirHorizontal) &&
        decide (player = 1) && rules) := by
  unfold checkWin directions
  rw [List.find?_cons_of_pos _ (by simpa using h0)]
  exact ⟨rfl, rfl⟩

theorem checkWin_found1 (b : Board) (size : ℕ) (rules : Bool) (x y : ℤ) (player : ℕ)
    (h0 : ¬ 5 ≤ _countConsecutive b size x y player dirHorizontal)
    (h1 : 5 ≤ _countConsecutive b size x y player dirVertical) :
    (checkWin b size rules x y player).isWin =
      !(decide (5 < _countConsecutive b size x y player dirVertical) &&
        decide (player = 1) && rules) ∧
    (checkWin b size rules x y player).isOverline =
      (decide (5 < _countConsecutive b size x y player dirVertical) &&
        decide (player = 1) && rules) := by
  unfold checkWin directions
  rw [List.find?_cons_of_neg _ (by simpa using h0),
    List.find?_cons_of_pos _ (by simpa using h1)]
  exact ⟨rfl, rfl⟩

theorem checkWin_found2 (b : Board) (size : ℕ) (rules : Bool) (x y : ℤ) (player : ℕ)
    (h0 : ¬ 5 ≤ _countConsecutive b size x y player dirHorizontal)
    (h1 : ¬ 5 ≤ _countConsecutive b size x y player dirVertical)
    (h2 : 5 ≤ _countConsecutive b size x y player dirDiagDown) :
    (checkWin b size rules x y player).isWin =
      !(decide (5 < _countConsecutive b size x y player dirDiagDown) &&
        decide (player = 1) && rules) ∧
    (checkWin b size rules x y player).isOverline =
      (decide (5 < _countConsecutive b size x y player dirDiagDown) &&
        decide (player = 1) && rules) := by
  unfold checkWin directions
  rw [List.find?_cons_of_neg _ (by simpa using h0),
    List.find?_cons_of_neg _ (by simpa using h1),
    List.find?_cons_of_pos _ (by simpa using h2)]
  exact ⟨rfl, rfl⟩

theorem checkWin_found3 (b : Board) (size : ℕ) (rules : Bool) (x y : ℤ) (player : ℕ)
    (h0 : ¬ 5 ≤ _countConsecutive b size x y player dirHorizontal)
    (h1 : ¬ 5 ≤ _countConsecutive b size x y player dirVertical)
    (h2 : ¬ 5 ≤ _countConsecutive b size x y player dirDiagDown)
    (h3 : 5 ≤ _countConsecutive b size x y player dirDiagUp) :
    (checkWin b size rules x y player).isWin =
      !(decide (5 < _countConsecutive b size x y player dirDiagUp) &&
        decide (player = 1) && rules) ∧
    (checkWin b size rules x y player).isOverline =
      (decide (5 < _countConsecutive b size x y player dirDiagUp) &&
        decide (player = 1) && rules) := by
  unfold checkWin directions
  rw [List.find?_cons_of_neg _ (by simpa using h0),
    List.find?_cons_of_neg _ (by simpa using h1),
    List.find?_cons_of_neg _ (by simpa using h2),
    List.find?_cons_of_pos _ (by simpa using h3)]
  exact ⟨rfl, rfl⟩

theorem checkWin_notFound (b : Board) (size : ℕ) (rules : Bool) (x y : ℤ) (player : ℕ)
    (h0 : ¬ 5 ≤ _countConsecutive b size x y player dirHorizontal)
    (h1 : ¬ 5 ≤ _countConsecutive b size x y player dirVertical)
    (h2 : ¬ 5 ≤ _countConsecutive b size x y player dirDiagDown)
    (h3 : ¬ 5 ≤ _countConsecutive b size x y player dirDiagUp) :
    (checkWin b size rules x y player).isWin = false ∧
    (checkWin b size rules x y player).isOverline = false := by
  unfold checkWin directions
  rw [List.find?_cons_of_neg _ (by simpa using h0),
    List.find?_cons_of_neg _ (by simpa using h1),
    List.find?_cons_of_neg _ (by simpa using h2),
    List.find?_cons_of_neg _ (by simpa using h3)]
  exact ⟨rfl, rfl⟩

/-- C3, counterexample: on a board with a horizontal six-run and a vertical
run of exactly five through `(5,5)`, with forbidden rules on and black to
move, some direction (vertical) has a maximal run of at least 5 that does
not exceed 5, so the claim requires a win — but `checkWin` returns at the
first qualifying direction (horizontal, count 6) and reports an overline,
not a win. -/
theorem c3_counterexample :
    (checkWin b3 15 true 5 5 1).isWin = false ∧
    (checkWin b3 15 true 5 5 1).isOverline = true ∧
    dirVertical ∈ directions ∧
    _countConsecutive b3 15 5 5 1 dirVertical = 5 ∧
    ¬(5 < _countConsecutive b3 15 5 5 1 dirVertical ∧ (1 : ℕ) = 1 ∧ true = true) := by
  decide

/-- C3, amended: `checkWin` scans the four directions in the fixed order
horizontal, vertical, diag-down, diag-up and returns at the FIRST direction
whose maximal contiguous run through `(x, y)` is at least 5: that run is a
win unless it exceeds 5 and the player is black (1) and forbidden rules are
enabled, in which case the result is an overline and not a win; when no
direction has a run of at least 5 (e.g. on a fresh board) there is no win
and no overline. -/
theorem c3_amended_checkWin_first_direction (b : Board) (size : ℕ) (rules : Bool)
    (x y : ℤ) (player : ℕ) :
    ((checkWin b size rules x y player).isWin = true ↔
      ((5 ≤ _countConsecutive b size x y player dirHorizontal ∧
        ¬(5 < _countConsecutive b size x y player dirHorizontal ∧ player = 1 ∧ rules = true)) ∨
       (_countConsecutive b size x y player dirHorizontal < 5 ∧
        5 ≤ _countConsecutive b size x y player dirVertical ∧
        ¬(5 < _countConsecutive b size x y player dirVertical ∧ player = 1 ∧ rules = true)) ∨
       (_countConsecutive b size x y player dirHorizontal < 5 ∧
        _countConsecutive b size x y player dirVertical < 5 ∧
        5 ≤ _countConsecutive b size x y player dirDiagDown ∧
        ¬(5 < _countConsecutive b size x y player dirDiagDown ∧ player = 1 ∧ rules = true)) ∨
       (_countConsecutive b size x y player dirHorizontal < 5 ∧
        _countConsecutive b size x y player dirVertical < 5 ∧
        _countConsecutive b size x y player dirDiagDown < 5 ∧
        5 ≤ _countConsecutive b size x y player dirDiagUp ∧
        ¬(5 < _countConsecutive b size x y player dirDiagUp ∧ player = 1 ∧ rules = true)))) ∧
    ((checkWin b size rules x y player).isOverline = true ↔
      ((5 ≤ _countConsecutive b size x y player dirHorizontal ∧
        (5 < _countConsecutive b size x y player dirHorizontal ∧ player = 1 ∧ rules = true)) ∨
       (_countConsecutive b size x y player dirHorizontal < 5 ∧
        5 ≤ _countConsecutive b size x y player dirVertical ∧
        (5 < _countConsecutive b size x y player dirVertical ∧ player = 1 ∧ rules = true)) ∨
       (_countConsecutive b size x y player dirHorizontal < 5 ∧
        _countConsecutive b size x y player dirVertical < 5 ∧
        5 ≤ _countConsecutive b size x y player dirDiagDown ∧
        (5 < _countConsecutive b size x y player dirDiagDown ∧ player = 1 ∧ rules = true)) ∨
       (_countConsecutive b size x y player dirHorizontal < 5 ∧
        _countConsecutive b size x y player dirVertical < 5 ∧
        _countConsecutive b size x y player dirDiagDown < 5 ∧
        5 ≤ _countConsecutive b size x y player dirDiagUp ∧
        (5 < _countConsecutive b size x y player dirDiagUp ∧ player = 1 ∧ rules = true)))) ∧
    ((_countConsecutive b size x y player dirHorizontal < 5 ∧
      _countConsecutive b size x y player dirVertical < 5 ∧
      _countConsecutive b size x y player dirDiagDown < 5 ∧
      _countConsecutive b size x y player dirDiagUp < 5) →
      (checkWin b size rules x y player).isWin = false ∧
      (checkWin b size rules x y player).isOverline = false) := by
  by_cases h0 : 5 ≤ _countConsecutive b size x y player dirHorizontal
  · obtain ⟨hw, ho⟩ := checkWin_found0 b size rules x y player h0
    refine ⟨?_, ?_, ?_⟩
    · rw [hw, Bool.not_eq_true', ovb_false_iff]
      simp [h0, not_lt.mpr h0]
    · rw [ho, ovb_true_iff]
      simp [h0, not_lt.mpr h0]
    · intro hS
      exact absurd hS.1 (not_lt.mpr h0)
  · by_cases h1 : 5 ≤ _countConsecutive b size x y player dirVertical
    · obtain ⟨hw, ho⟩ := checkWin_found1 b size rules x y player h0 h1
      refine ⟨?_, ?_, ?_⟩
      · rw [hw, Bool.not_eq_true', ovb_false_iff]
        simp [h0, h1, not_lt.mpr h1, lt_of_not_le h0]
      · rw [ho, ovb_true_iff]
        simp [h0, h1, not_lt.mpr h1, lt_of_not_le h0]
      · intro hS
        exact absurd hS.2.1 (not_lt.mpr h1)
    · by_cases h2 : 5 ≤ _countConsecutive b size x y player dirDiagDown
      · obtain ⟨hw, ho⟩ := checkWin_found2 b size rules x y player h0 h1 h2
        refine ⟨?_, ?_, ?_⟩
        · rw [hw, Bool.not_eq_true', ovb_false_iff]
          simp [h0, h1, h2, not_lt.mpr h2, lt_of_not_le h0, lt_of_not_le h1]
        · rw [ho, ovb_true_iff]
          simp [h0, h1, h2, not_lt.mpr h2, lt_of_not_le h0, lt_of_not_le h1]
        · intro hS
          exact absurd hS.2.2.1 (not_lt.mpr h2)
      · by_cases h3 : 5 ≤ _countConsecutive b size x y player dirDiagUp
        · obtain ⟨hw, ho⟩ := checkWin_found3 b size rules x y player h0 h1 h2 h3
          refine ⟨?_, ?_, ?_⟩
          · rw [hw, Bool.not_eq_true', ovb_false_iff]
            simp [h0, h1, h2, h3, not_lt.mpr h3, lt_of_not_le h0, lt_of_not_le h1,
              lt_of_not_le h2]
          · rw [ho, ovb_true_iff]
            simp [h0, h1, h2, h3, not_lt.mpr h3, lt_of_not_le h0, lt_of_not_le h1,
              lt_of_not_le h2]
          · intro hS
            exact absurd hS.2.2.2 (not_lt.mpr h3)
        · obtain ⟨hw, ho⟩ := checkWin_notFound b size rules x y player h0 h1 h2 h3
          refine ⟨?_, ?_, fun _ => ⟨hw, ho⟩⟩
          · rw [hw]
            simp [h0, h1, h2, h3]
          · rw [ho]
            simp [h0, h1, h2, h3]

/-- C3, witness for the amended theorem: a fresh (all-empty) board has no
run of length 5, and `checkWin` reports no win and no overline there. -/
theorem c3_witness :
    (checkWin (fun _ _ => 0) 15 true 7 7 1).isWin = false ∧
    (checkWin (fun _ _ => 0) 15 true 7 7 1).isOverline = false :=
  (c3_amended_checkWin_first_direction (fun _ _ => 0) 15 true 7 7 1).2.2 (by decide)

/-! ## Forbidden detection (C4) -/

/-- The live-three list of `_checkDoubleThree` has one entry per direction
whose classification (with the hypothetical stone already on the board) is
live-three. -/
theorem checkDoubleThree_length (b : Board) (x y : ℤ) :
    (_checkDoubleThree b x y).length = directions.countP fun d =>
      decide ((_analyzeDirectionPatternOnBoard b x y 1 d).map DirPattern.type =
        some PKind.liveThree) := by
  unfold _checkDoubleThree
  rw [List.length_filterMap_eq_countP]
  refine List.countP_congr fun d _ => ?_
  cases han : _analyzeDirectionPatternOnBoard b x y 1 d with
  | none => simp [han]
  | some p =>
    by_cases ht : p.type = PKind.liveThree
    · simp [han, ht]
    · simp [han, ht]

/-- The four list of `_checkDoubleFour` has one entry per direction whose
classification is live-four or rush-four. -/
theorem checkDoubleFour_length (b : Board) (x y : ℤ) :
    (_checkDoubleFour b x y).length = directions.countP fun d =>
      decide ((_analyzeDirectionPatternOnBoard b x y 1 d).map DirPattern.type =
          some PKind.liveFour ∨
        (_analyzeDirectionPatternOnBoard b x y 1 d).map DirPattern.type =
          some PKind.rushFour) := by
  unfold _checkDoubleFour
  rw [List.length_filterMap_eq_countP]
  refine List.countP_congr fun d _ => ?_
  cases han : _analyzeDirectionPatternOnBoard b x y 1 d with
  | none => simp [han]
  | some p =>
    by_cases ht : p.type = PKind.liveFour ∨ p.type = PKind.rushFour
    · simp [han, ht]
    · simp [ht]

/-- `_checkOverline` finds a direction exactly when some direction's
contiguous black run through `(x, y)` exceeds 5. -/
theorem checkOverline_isSome (b : Board) (x y : ℤ) :
    (_checkOverline b x y).isSome = true ↔
      ∃ d ∈ directions, 5 < overlineCount b x y d := by
  unfold _checkOverline
  rw [Option.isSome_map']
  simp [List.find?_isSome]

/-- C4: `detectForbidden` (black, with the hypothetical stone placed on a
copy of the board) reports OVERLINE iff some direction's contiguous black
run through the cell is longer than 5; DOUBLE_THREE iff at least 2 of the 4
directions classify as live-three; DOUBLE_FOUR iff at least 2 directions
classify as live-four or rush-four combined; and the move is forbidden
exactly when the list of violations is non-empty. -/
theorem c4_detectForbidden_characterization (b : Board) (x y : ℤ)
    (hin : isValidPosition 15 x y = true) (hempty : b x y = 0) :
    (FType.OVERLINE ∈ (detectForbidden b x y).types ↔
      ∃ d ∈ directions, 5 < overlineCount (boardSet b x y 1) x y d) ∧
    (FType.DOUBLE_THREE ∈ (detectForbidden b x y).types ↔
      2 ≤ directions.countP fun d =>
        decide ((_analyzeDirectionPatternOnBoard (boardSet b x y 1) x y 1 d).map
          DirPattern.type = some PKind.liveThree)) ∧
    (FType.DOUBLE_FOUR ∈ (detectForbidden b x y).types ↔
      2 ≤ directions.countP fun d =>
        decide ((_analyzeDirectionPatternOnBoard (boardSet b x y 1) x y 1 d).map
            DirPattern.type = some PKind.liveFour ∨
          (_analyzeDirectionPatternOnBoard (boardSet b x y 1) x y 1 d).map
            DirPattern.type = some PKind.rushFour)) ∧
    ((detectForbidden b x y).isForbidden = true ↔ (detectForbidden b x y).types ≠ []) := by
  refine ⟨?_, ?_, ?_, ?_⟩
  · rw [← checkOverline_isSome]
    simp only [detectForbidden]
    split_ifs <;> simp_all
  · rw [← checkDoubleThree_length]
    simp only [detectForbidden]
    split_ifs <;> simp_all
  · rw [← checkDoubleFour_length]
    simp only [detectForbidden]
    split_ifs <;> simp_all
  · simp [detectForbidden]
    constructor
    · rintro (h | h | h) h1 h2
      · exact absurd h1 h
      · omega
      · exact h
    · intro himp
      by_cases ho : _checkOverline (boardSet b x y 1) x y = none
      · by_cases h3 : 2 ≤ (_checkDoubleThree (boardSet b x y 1) x y).length
        · exact Or.inr (Or.inl h3)
        · exact Or.inr (Or.inr (himp ho (by omega)))
      · exact Or.inl ho

/-- C4 witness: the characterization applied at the empty centre cell of an
empty board. -/
theorem c4_witness :
    (FType.OVERLINE ∈ (detectForbidden (fun _ _ => 0) 7 7).types ↔
      ∃ d ∈ directions, 5 < overlineCount (boardSet (fun _ _ => 0) 7 7 1) 7 7 d) ∧
    (FType.DOUBLE_THREE ∈ (detectForbidden (fun _ _ => 0) 7 7).types ↔
      2 ≤ directions.countP fun d =>
        decide ((_analyzeDirectionPatternOnBoard (boardSet (fun _ _ => 0) 7 7 1) 7 7 1 d).map
          DirPattern.type = some PKind.liveThree)) ∧
    (FType.DOUBLE_FOUR ∈ (detectForbidden (fun _ _ => 0) 7 7).types ↔
      2 ≤ directions.countP fun d =>
        decide ((_analyzeDirectionPatternOnBoard (boardSet (fun _ _ => 0) 7 7 1) 7 7 1 d).map
            DirPattern.type = some PKind.liveFour ∨
          (_analyzeDirectionPatternOnBoard (boardSet (fun _ _ => 0) 7 7 1) 7 7 1 d).map
            DirPattern.type = some PKind.rushFour)) ∧
    ((detectForbidden (fun _ _ => 0) 7 7).isForbidden = true ↔
      (detectForbidden (fun _ _ => 0) 7 7).types ≠ []) :=
  c4_detectForbidden_characterization (fun _ _ => 0) 7 7 (by decide) rfl

/-! ## Move validation (C7) -/

/-- C7: `validateMove` rejects with reasons checked in the order
out-of-bounds, occupied, forbidden; the forbidden rejection happens only
when forbidden rules are enabled and the mover (the current player) is
black (1) and `detectForbidden` flags the cell — in particular a white
(player 2) move is never rejected as forbidden under any configuration. -/
theorem c7_validateMove_order (b : Board) (size : ℕ) (rules : Bool) (cp : ℕ) (x y : ℤ) :
    (validateMove b size rules cp x y = some VError.INVALID_POSITION ↔
      ¬ isValidPosition size x y = true) ∧
    (validateMove b size rules cp x y = some VError.POSITION_OCCUPIED ↔
      isValidPosition size x y = true ∧ b x y ≠ 0) ∧
    (validateMove b size rules cp x y = some VError.FORBIDDEN_MOVE ↔
      isValidPosition size x y = true ∧ b x y = 0 ∧ rules = true ∧ cp = 1 ∧
        (detectForbidden b x y).isForbidden = true) ∧
    (validateMove b size rules cp x y = none ↔
      isValidPosition size x y = true ∧ b x y = 0 ∧
        ¬(rules = true ∧ cp = 1 ∧ (detectForbidden b x y).isForbidden = true)) ∧
    (cp = 2 → validateMove b size rules cp x y ≠ some VError.FORBIDDEN_MOVE) := by
  unfold validateMove
  split_ifs with h1 h2 h3 <;> simp_all

/-! ## Candidate generation (C8) -/

theorem offsets_bound {r : ℕ} {d : ℤ} (h : d ∈ offsets r) : -(r : ℤ) ≤ d ∧ d ≤ (r : ℤ) := by
  unfold offsets at h
  obtain ⟨i, hi, rfl⟩ := List.mem_map.mp h
  rw [List.mem_range] at hi
  omega

theorem gamCandidates_mem {history : List Move} {range : ℕ} {p : ℤ × ℤ}
    (h : p ∈ gamCandidates history range) : chebWithin history range p := by
  simp only [gamCandidates, List.mem_flatMap, List.mem_map] at h
  obtain ⟨m, hm, dx, hdx, dy, hdy, rfl⟩ := h
  obtain ⟨hdx1, hdx2⟩ := offsets_bound hdx
  obtain ⟨hdy1, hdy2⟩ := offsets_bound hdy
  refine ⟨m, hm, ?_, ?_⟩ <;> simp only [] <;> rw [abs_le] <;> constructor <;> omega

theorem gamFold_invariant (b : Board) (size : ℕ) (rules : Bool) (cp : ℕ) (incF : Bool)
    (history : List Move) (range : ℕ) :
    ∀ (cells : List (ℤ × ℤ)) (st : List (ℤ × ℤ) × List (ℤ × ℤ)),
    (∀ p ∈ st.2, gamGood b size history range p) → st.2.Nodup →
    (∀ p ∈ st.2, p ∈ st.1) → (∀ p ∈ cells, chebWithin history range p) →
    ((∀ p ∈ (cells.foldl (gamStep b size rules cp incF) st).2,
        gamGood b size history range p) ∧
      (cells.foldl (gamStep b size rules cp incF) st).2.Nodup ∧
      (∀ p ∈ (cells.foldl (gamStep b size rules cp incF) st).2,
        p ∈ (cells.foldl (gamStep b size rules cp incF) st).1)) := by
  intro cells
  induction cells with
  | nil =>
    intro st h1 h2 h3 _
    exact ⟨h1, h2, h3⟩
  | cons c cs ih =>
    intro st h1 h2 h3 hcand
    rw [List.foldl_cons]
    have hcandc : chebWithin history range c := hcand c (by simp)
    have hcand' : ∀ p ∈ cs, chebWithin history range p := fun p hp => hcand p (by simp [hp])
    by_cases hmem : c ∈ st.1
    · rw [gamStep, if_pos hmem]
      exact ih st h1 h2 h3 hcand'
    · rw [gamStep, if_neg hmem]
      by_cases hval : ¬ isValidPosition size c.1 c.2 = true
      · rw [if_pos hval]
        exact ih _ h1 h2 (fun p hp => List.mem_cons_of_mem _ (h3 p hp)) hcand'
      · rw [if_neg hval]
        by_cases hocc : b c.1 c.2 ≠ 0
        · rw [if_pos hocc]
          exact ih _ h1 h2 (fun p hp => List.mem_cons_of_mem _ (h3 p hp)) hcand'
        · rw [if_neg hocc]
          by_cases hforb : ¬ incF = true ∧ rules = true ∧ cp = 1 ∧
              (detectForbidden b c.1 c.2).isForbidden = true
          · rw [if_pos hforb]
            exact ih _ h1 h2 (fun p hp => List.mem_cons_of_mem _ (h3 p hp)) hcand'
          · rw [if_neg hforb]
            apply ih
            · intro p hp
              rcases List.mem_append.mp hp with hp | hp
              · exact h1 p hp
              · have hpc : p = c := by simpa using hp
                subst hpc
                exact ⟨not_not.mp hval, not_not.mp hocc, hcandc⟩
            · rw [List.nodup_append]
              refine ⟨h2, List.nodup_singleton _, ?_⟩
              rw [List.disjoint_singleton]
              intro hc
              exact hmem (h3 c hc)
            · intro p hp
              rcases List.mem_append.mp hp with hp | hp
              · exact List.mem_cons_of_mem _ (h3 p hp)
              · have hpc : p = c := by simpa using hp
                subst hpc
                simp
            · exact hcand'

/-- C8: `getAvailableMoves` returns exactly the single centre cell
(`(7, 7)` for a 15×15 board) when the history is empty; otherwise every
returned cell is empty, in-bounds and within Chebyshev distance `range` of
some historical move, and no cell appears twice. -/
theorem c8_getAvailableMoves_spec (b : Board) (size : ℕ) (rules : Bool) (cp : ℕ)
    (history : List Move) (range : ℕ) (incF : Bool) :
    (history = [] → getAvailableMoves b size rules cp history range incF =
      [(((size / 2 : ℕ) : ℤ), ((size / 2 : ℕ) : ℤ))]) ∧
    (history ≠ [] → ∀ p ∈ getAvailableMoves b size rules cp history range incF,
      isValidPosition size p.1 p.2 = true ∧ b p.1 p.2 = 0 ∧
        chebWithin history range p) ∧
    (getAvailableMoves b size rules cp history range incF).Nodup := by
  by_cases hemp : history = []
  · subst hemp
    refine ⟨fun _ => rfl, fun hne => absurd rfl hne, ?_⟩
    rw [getAvailableMoves]
    simp
  · have hlen : ¬ history.length = 0 := by
      simpa [List.length_eq_zero] using hemp
    have hinv := gamFold_invariant b size rules cp incF history range
      (gamCandidates history range) ([], []) (by simp) (by simp) (by simp)
      (fun p hp => gamCandidates_mem hp)
    rw [getAvailableMoves, if_neg hlen]
    exact ⟨fun he => absurd he hemp, fun _ p hp => hinv.1 p hp, hinv.2.1⟩

/-- C8 witness: the empty-history case returns exactly the centre `(7,7)`
of the 15×15 board, and for a one-move history every returned cell is
empty, in-bounds and within Chebyshev distance 2 of that move. -/
theorem c8_witness :
    (getAvailableMoves (fun _ _ => 0) 15 true 1 [] 2 false = [((7 : ℤ), (7 : ℤ))]) ∧
    (∀ p ∈ getAvailableMoves (fun _ _ => 0) 15 true 1 [⟨7, 7, 1, 1, 0, 1⟩] 2 false,
      isValidPosition 15 p.1 p.2 = true ∧ (0 : ℕ) = 0 ∧
        chebWithin [⟨7, 7, 1, 1, 0, 1⟩] 2 p) := by
  constructor
  · exact (c8_getAvailableMoves_spec (fun _ _ => 0) 15 true 1 [] 2 false).1 rfl
  · intro p hp
    exact (c8_getAvailableMoves_spec (fun _ _ => 0) 15 true 1
      [⟨7, 7, 1, 1, 0, 1⟩] 2 false).2.1 (by simp) p hp

/-! ## Frame lemmas for the AI search (C9) -/

theorem getD_set_self {α : Type} (l : List α) (r : ℕ) (a d : α) (h : r < l.length) :
    (l.set r a).getD r d = a := by
  rw [List.getD_eq_get?, List.get?_set_eq]
  cases hg : l.get? r with
  | none =>
    rw [List.get?_eq_none] at hg
    omega
  | some b => simp

theorem getD_set_ne {α : Type} (l : List α) {m n : ℕ} (a d : α) (h : m ≠ n) :
    (l.set m a).getD n d = l.getD n d := by
  rw [List.getD_eq_get?, List.get?_set_ne _ _ h, ← List.getD_eq_get?]

theorem getD_concat_self {α : Type} (l : List α) (a d : α) :
    (l ++ [a]).getD l.length d = a := by
  rw [List.getD_eq_get?, List.get?_concat_length]
  rfl

theorem lenOK_of_frame {no nb nh : ℕ} {h h' : AIHeap}
    (hf : FrameBelow no nb nh h h') : LenOK no nb nh h' :=
  ⟨hf.1, hf.2.1, hf.2.2.1⟩

theorem frameBelow_refl {no nb nh : ℕ} {h : AIHeap} (hl : LenOK no nb nh h) :
    FrameBelow no nb nh h h :=
  ⟨hl.1, hl.2.1, hl.2.2, fun _ _ => rfl, fun _ _ => rfl, fun _ _ => rfl⟩

theorem frameBelow_trans {no nb nh : ℕ} {h h' h'' : AIHeap}
    (h1 : FrameBelow no nb nh h h') (h2 : FrameBelow no nb nh h' h'') :
    FrameBelow no nb nh h h'' :=
  ⟨h2.1, h2.2.1, h2.2.2.1,
    fun i hi => (h2.2.2.2.1 i hi).trans (h1.2.2.2.1 i hi),
    fun i hi => (h2.2.2.2.2.1 i hi).trans (h1.2.2.2.2.1 i hi),
    fun i hi => (h2.2.2.2.2.2 i hi).trans (h1.2.2.2.2.2 i hi)⟩

theorem getSnapshotAlloc_frame {no nb nh : ℕ} (h : AIHeap) (o : GSObj)
    (hl : LenOK no nb nh h) : FrameBelow no nb nh h (getSnapshotAlloc h o).1 := by
  obtain ⟨l1, l2, l3⟩ := hl
  refine ⟨?_, ?_, ?_, fun i hi => rfl, fun i hi => ?_, fun i hi => ?_⟩
  · simpa [getSnapshotAlloc] using l1
  · simp only [getSnapshotAlloc, List.length_append, List.length_singleton]
    omega
  · simp only [getSnapshotAlloc, List.length_append, List.length_singleton]
    omega
  · exact List.get?_append (by omega)
  · exact List.get?_append (by omega)

theorem createTempState_spec {no nb nh : ℕ} (h : AIHeap) (r : ℕ)
    (hl : LenOK no nb nh h) :
    FrameBelow no nb nh h (_createTempState h r).1 ∧
    TempOK no nb nh (_createTempState h r).1 (_createTempState h r).2 := by
  obtain ⟨l1, l2, l3⟩ := hl
  constructor
  · refine ⟨?_, ?_, ?_, fun i hi => ?_, fun i hi => ?_, fun i hi => ?_⟩
    · simp only [_createTempState, getSnapshotAlloc, List.length_append,
        List.length_singleton]
      omega
    · simp only [_createTempState, getSnapshotAlloc, List.length_append,
        List.length_singleton]
      omega
    · simp only [_createTempState, getSnapshotAlloc, List.length_append,
        List.length_singleton]
      omega
    · simp only [_createTempState, getSnapshotAlloc]
      exact List.get?_append (by omega)
    · simp only [_createTempState, getSnapshotAlloc]
      exact List.get?_append (by omega)
    · simp only [_createTempState, getSnapshotAlloc]
      exact List.get?_append (by omega)
  · refine ⟨?_, ?_, ?_, ?_, ?_, ?_⟩
    · simp only [_createTempState, getSnapshotAlloc]
      omega
    · simp only [_createTempState, getSnapshotAlloc, List.length_append,
        List.length_singleton]
      omega
    · simp only [_createTempState, getSnapshotAlloc, objAt, getD_concat_self]
      exact l2
    · simp only [_createTempState, getSnapshotAlloc, objAt, getD_concat_self,
        List.length_append, List.length_singleton]
      omega
    · simp only [_createTempState, getSnapshotAlloc, objAt, getD_concat_self]
      exact l3
    · simp only [_createTempState, getSnapshotAlloc, objAt, getD_concat_self,
        List.length_append, List.length_singleton]
      omega

theorem setPlayerH_frame {no nb nh : ℕ} (h : AIHeap) (r : ℕ) (p : ℕ)
    (hl : LenOK no nb nh h) (hr : no ≤ r) :
    FrameBelow no nb nh h (setPlayerH h r p) := by
  obtain ⟨l1, l2, l3⟩ := hl
  refine ⟨?_, l2, l3, fun i hi => ?_, fun i hi => rfl, fun i hi => rfl⟩
  · simpa [setPlayerH, List.length_set] using l1
  · exact List.get?_set_ne _ _ (by omega)

theorem setPlayerH_tempOK {no nb nh : ℕ} {h : AIHeap} {r : ℕ} (p : ℕ)
    (ht : TempOK no nb nh h r) : TempOK no nb nh (setPlayerH h r p) r := by
  obtain ⟨t1, t2, t3, t4, t5, t6⟩ := ht
  have hobj : objAt (setPlayerH h r p) r =
      { objAt h r with currentPlayer := p } := by
    simp only [setPlayerH, objAt]
    exact getD_set_self _ _ _ _ t2
  refine ⟨t1, ?_, ?_, ?_, ?_, ?_⟩
  · simpa [setPlayerH, List.length_set] using t2
  · rw [hobj]
    exact t3
  · rw [hobj]
    exact t4
  · rw [hobj]
    exact t5
  · rw [hobj]
    exact t6

theorem applyMoveH_spec {no nb nh : ℕ} (h : AIHeap) (r : ℕ) (x y : ℤ) (now : ℕ)
    (hl : LenOK no nb nh h) (ht : TempOK no nb nh h r) :
    FrameBelow no nb nh h (applyMoveH h r x y now).1 ∧
    TempOK no nb nh (applyMoveH h r x y now).1 r := by
  obtain ⟨l1, l2, l3⟩ := hl
  obtain ⟨t1, t2, t3, t4, t5, t6⟩ := ht
  simp only [applyMoveH]
  cases ha : applyMove (readState h (objAt h r)) x y now with
  | none => exact ⟨frameBelow_refl ⟨l1, l2, l3⟩, t1, t2, t3, t4, t5, t6⟩
  | some ms =>
    obtain ⟨m, s'⟩ := ms
    constructor
    · refine ⟨?_, ?_, ?_, fun i hi => ?_, fun i hi => ?_, fun i hi => ?_⟩
      · simpa [List.length_set] using l1
      · simpa [List.length_set] using l2
      · simpa [List.length_set] using l3
      · exact List.get?_set_ne _ _ (by omega)
      · exact List.get?_set_ne _ _ (by omega)
      · exact List.get?_set_ne _ _ (by omega)
    · have hobj : objAt
          (⟨h.objs.set r
              { objAt h r with
                gameStatus := s'.gameStatus
                moveCount := s'.moveCount
                startTime := s'.startTime },
            h.boards.set (objAt h r).boardRef s'.board,
            h.hists.set (objAt h r).histRef s'.moveHistory⟩ : AIHeap) r =
          { objAt h r with
            gameStatus := s'.gameStatus
            moveCount := s'.moveCount
            startTime := s'.startTime } := by
        simp only [objAt]
        exact getD_set_self _ _ _ _ t2
      refine ⟨t1, ?_, ?_, ?_, ?_, ?_⟩
      · simpa [List.length_set] using t2
      · rw [hobj]
        exact t3
      · simp only [List.length_set]
        rw [hobj]
        exact t4
      · rw [hobj]
        exact t5
      · simp only [List.length_set]
        rw [hobj]
        exact t6

theorem evaluateBasicPosition_frame {no nb nh : ℕ} (h : AIHeap) (r : ℕ) (x y : ℤ)
    (hl : LenOK no nb nh h) :
    FrameBelow no nb nh h (_evaluateBasicPosition h r x y).1 := by
  simp only [_evaluateBasicPosition]
  obtain ⟨hf, ht⟩ := createTempState_spec h r hl
  exact frameBelow_trans hf
    (setPlayerH_frame _ _ _ (lenOK_of_frame hf) ht.1)

theorem scoreMoves_frame {no nb nh : ℕ} (r : ℕ) :
    ∀ (moves : List (ℤ × ℤ)) (h : AIHeap), LenOK no nb nh h →
      FrameBelow no nb nh h (scoreMoves h r moves).1
  | [], _, hl => frameBelow_refl hl
  | mv :: rest, h, hl => by
    simp only [scoreMoves]
    have h1 := evaluateBasicPosition_frame h r mv.1 mv.2 hl
    exact frameBelow_trans h1
      (scoreMoves_frame r rest (_evaluateBasicPosition h r mv.1 mv.2).1
        (lenOK_of_frame h1))

theorem mmLoopAux_frame {no nb nh : ℕ}
    (recur : AIHeap → List Bool → ℕ → XQ → XQ → AIHeap × List Bool × MMRes)
    (hrec : ∀ h tl rr a b, LenOK no nb nh h →
      FrameBelow no nb nh h (recur h tl rr a b).1)
    (isMax leaf : Bool) (r : ℕ) :
    ∀ (ms : List ((ℤ × ℤ) × ℚ)) (acc : MMAcc), LenOK no nb nh acc.heap →
      FrameBelow no nb nh acc.heap (mmLoopAux recur isMax leaf r ms acc).heap
  | [], _, hl => frameBelow_refl hl
  | (mv, sc) :: rest, acc, hl => by
    simp only [mmLoopAux]
    by_cases hstop : acc.stopped = true
    · rw [if_pos hstop]
      exact frameBelow_refl hl
    · rw [if_neg hstop]
      by_cases htime : acc.tl.headD false = true
      · rw [if_pos htime]
        exact frameBelow_refl hl
      · rw [if_neg htime]
        obtain ⟨hf1, ht1⟩ := createTempState_spec acc.heap r hl
        obtain ⟨hf2, ht2⟩ := applyMoveH_spec (_createTempState acc.heap r).1
          (_createTempState acc.heap r).2 mv.1 mv.2 0 (lenOK_of_frame hf1) ht1
        have hf12 := frameBelow_trans hf1 hf2
        have hl2 := lenOK_of_frame hf12
        by_cases hleaf : (leaf = true ∨
            (objAt (applyMoveH (_createTempState acc.heap r).1
              (_createTempState acc.heap r).2 mv.1 mv.2 0).1
              (_createTempState acc.heap r).2).gameStatus = GStatus.finished)
        · simp only [if_pos hleaf]
          exact frameBelow_trans hf12
            (mmLoopAux_frame recur hrec isMax leaf r rest _ hl2)
        · simp only [if_neg hleaf]
          have hf3 := hrec _ acc.tl.tail (_createTempState acc.heap r).2
            acc.alpha acc.beta hl2
          exact frameBelow_trans (frameBelow_trans hf12 hf3)
            (mmLoopAux_frame recur hrec isMax leaf r rest _
              (lenOK_of_frame (frameBelow_trans hf12 hf3)))

theorem mmRun_frame {no nb nh : ℕ}
    (recur : AIHeap → List Bool → ℕ → XQ → XQ → AIHeap × List Bool × MMRes)
    (hrec : ∀ h tl rr a b, LenOK no nb nh h →
      FrameBelow no nb nh h (recur h tl rr a b).1)
    (leaf isMax : Bool) (h : AIHeap) (tl : List Bool) (r : ℕ) (a b : XQ)
    (hl : LenOK no nb nh h) :
    FrameBelow no nb nh h (mmRun recur leaf isMax h tl r a b).1 := by
  simp only [mmRun]
  by_cases hm : (getAvailableMovesH h r 2).isEmpty = true
  · rw [if_pos hm]
    exact frameBelow_refl hl
  · rw [if_neg hm]
    have hs := scoreMoves_frame r (getAvailableMovesH h r 2) h hl
    exact frameBelow_trans hs
      (mmLoopAux_frame recur hrec isMax leaf r _ _ (lenOK_of_frame hs))

theorem minimaxSearch_frame {no nb nh : ℕ} :
    ∀ (d : ℕ) (isMax : Bool) (h : AIHeap) (tl : List Bool) (r : ℕ) (a b : XQ),
      LenOK no nb nh h → FrameBelow no nb nh h (_minimaxSearch d isMax h tl r a b).1
  | 0, isMax, h, tl, r, a, b, hl => by
    simp only [_minimaxSearch]
    exact mmRun_frame _ (fun h' _ _ _ _ hl' => frameBelow_refl hl')
      true isMax h tl r a b hl
  | d + 1, isMax, h, tl, r, a, b, hl => by
    simp only [_minimaxSearch]
    exact mmRun_frame _
      (fun h' tl' rr a' b' hl' => minimaxSearch_frame d (!isMax) h' tl' rr a' b' hl')
      false isMax h tl r a b hl

theorem threatLoop_frame {no nb nh : ℕ} (r : ℕ) :
    ∀ (ms : List (ℤ × ℤ)) (h : AIHeap) (acc : Threats), LenOK no nb nh h →
      FrameBelow no nb nh h (threatLoop r ms h acc).1
  | [], _, _, hl => frameBelow_refl hl
  | mv :: rest, h, acc, hl => by
    simp only [threatLoop]
    obtain ⟨hf1, ht1⟩ := createTempState_spec h r hl
    have hf2 := setPlayerH_frame (_createTempState h r).1 (_createTempState h r).2
      (if (objAt h r).currentPlayer = 1 then 2 else 1) (lenOK_of_frame hf1) ht1.1
    have ht2 := setPlayerH_tempOK
      (if (objAt h r).currentPlayer = 1 then 2 else 1) ht1
    have hf12 := frameBelow_trans hf1 hf2
    obtain ⟨hf3, ht3⟩ := applyMoveH_spec _ (_createTempState h r).2 mv.1 mv.2 0
      (lenOK_of_frame hf12) ht2
    have hf123 := frameBelow_trans hf12 hf3
    exact frameBelow_trans hf123
      (threatLoop_frame r rest _ _ (lenOK_of_frame hf123))

theorem analyzeThreats_frame {no nb nh : ℕ} (h : AIHeap) (r : ℕ)
    (hl : LenOK no nb nh h) : FrameBelow no nb nh h (_analyzeThreats h r).1 := by
  simp only [_analyzeThreats]
  exact threatLoop_frame r (getAvailableMovesH h r 2) h ⟨[], [], []⟩ hl

theorem seqLoop_frame {no nb nh : ℕ} :
    ∀ (seq : List (ℤ × ℤ)) (h : AIHeap) (cur : ℕ) (total : ℤ), LenOK no nb nh h →
      FrameBelow no nb nh h (seqLoop seq h cur total).1
  | [], _, _, _, hl => frameBelow_refl hl
  | mv :: rest, h, cur, total, hl => by
    simp only [seqLoop]
    obtain ⟨hf1, ht1⟩ := createTempState_spec h cur hl
    obtain ⟨hf2, ht2⟩ := applyMoveH_spec (_createTempState h cur).1
      (_createTempState h cur).2 mv.1 mv.2 0 (lenOK_of_frame hf1) ht1
    have hf12 := frameBelow_trans hf1 hf2
    exact frameBelow_trans hf12
      (seqLoop_frame rest _ (_createTempState h cur).2 _ (lenOK_of_frame hf12))

theorem evaluateSequence_frame {no nb nh : ℕ} (h : AIHeap) (r : ℕ)
    (seq : List (ℤ × ℤ)) (hl : LenOK no nb nh h) :
    FrameBelow no nb nh h (_evaluateSequence h r seq).1 := by
  simp only [_evaluateSequence]
  exact seqLoop_frame seq h r 0 hl

theorem tssLoop_frame {no nb nh : ℕ} (r : ℕ) :
    ∀ (seqs : List (List (ℤ × ℤ))) (acc : TSAcc), LenOK no nb nh acc.heap →
      FrameBelow no nb nh acc.heap (tssLoop r seqs acc).heap
  | [], _, hl => frameBelow_refl hl
  | seq :: rest, acc, hl => by
    simp only [tssLoop]
    by_cases hstop : acc.stopped = true
    · rw [if_pos hstop]
      exact frameBelow_refl hl
    · rw [if_neg hstop]
      by_cases htime : acc.tl.headD false = true
      · rw [if_pos htime]
        exact frameBelow_refl hl
      · rw [if_neg htime]
        have hf1 := evaluateSequence_frame acc.heap r seq hl
        exact frameBelow_trans hf1
          (tssLoop_frame r rest _ (lenOK_of_frame hf1))

theorem threatSpaceSearch_frame {no nb nh : ℕ} (h : AIHeap) (tl : List Bool) (r : ℕ)
    (hl : LenOK no nb nh h) :
    FrameBelow no nb nh h (_threatSpaceSearch h tl r).1 := by
  simp only [_threatSpaceSearch]
  have hf1 := analyzeThreats_frame h r hl
  exact frameBelow_trans hf1 (tssLoop_frame r _ _ (lenOK_of_frame hf1))

theorem beginnerStrategy_frame {no nb nh : ℕ} (h : AIHeap) (rand : ℕ) (r : ℕ)
    (hl : LenOK no nb nh h) :
    FrameBelow no nb nh h (_beginnerStrategy h rand r).1 := by
  simp only [_beginnerStrategy]
  by_cases hm : (getAvailableMovesH h r 2).isEmpty = true
  · rw [if_pos hm]
    exact frameBelow_refl hl
  · rw [if_neg hm]
    exact scoreMoves_frame r (getAvailableMovesH h r 2) h hl

theorem normalStrategy_frame {no nb nh : ℕ} (h : AIHeap) (tl : List Bool) (r : ℕ)
    (hl : LenOK no nb nh h) :
    FrameBelow no nb nh h (_normalStrategy h tl r).1 := by
  simp only [_normalStrategy]
  exact minimaxSearch_frame 2 true h tl r XQ.ninf XQ.pinf hl

theorem hardStrategy_frame {no nb nh : ℕ} (h : AIHeap) (tl : List Bool) (r : ℕ)
    (hl : LenOK no nb nh h) :
    FrameBelow no nb nh h (_hardStrategy h tl r).1 := by
  simp only [_hardStrategy]
  have hf1 := analyzeThreats_frame h r hl
  cases hc : (_analyzeThreats h r).2.critical with
  | cons c rest => exact hf1
  | nil =>
    exact frameBelow_trans hf1
      (minimaxSearch_frame 3 true (_analyzeThreats h r).1 tl r XQ.ninf XQ.pinf
        (lenOK_of_frame hf1))

theorem hellStrategy_frame {no nb nh : ℕ} (h : AIHeap) (tl : List Bool) (r : ℕ)
    (hl : LenOK no nb nh h) :
    FrameBelow no nb nh h (_hellStrategy h tl r).1 := by
  simp only [_hellStrategy]
  exact threatSpaceSearch_frame h tl r hl

theorem calculateBestMove_frame {no nb nh : ℕ} (h : AIHeap) (tl : List Bool)
    (rand : ℕ) (r : ℕ) (difficulty : Difficulty) (hl : LenOK no nb nh h) :
    FrameBelow no nb nh h (calculateBestMove h tl rand r difficulty).1 := by
  simp only [calculateBestMove]
  have hf0 := getSnapshotAlloc_frame h (objAt h r) hl
  have hl0 := lenOK_of_frame hf0
  cases difficulty with
  | BEGINNER => exact frameBelow_trans hf0 (beginnerStrategy_frame _ rand r hl0)
  | NORMAL => exact frameBelow_trans hf0 (normalStrategy_frame _ tl r hl0)
  | HARD => exact frameBelow_trans hf0 (hardStrategy_frame _ tl r hl0)
  | HELL => exact frameBelow_trans hf0 (hellStrategy_frame _ tl r hl0)

/-- C9: `calculateBestMove` never mutates the caller's game state.  Under
the allocation-store embedding: the caller's state object (hence its
`currentPlayer` and both array references), its board array and its move
history array are unchanged by the search at every difficulty; all
simulated moves write only to stores allocated by `getSnapshot` clones
during the search. -/
theorem c9_calculateBestMove_frame (h : AIHeap) (tl : List Bool) (rand : ℕ) (r : ℕ)
    (difficulty : Difficulty) (o : GSObj)
    (hobj : h.objs.get? r = some o)
    (hb : o.boardRef < h.boards.length)
    (hh : o.histRef < h.hists.length) :
    (calculateBestMove h tl rand r difficulty).1.objs.get? r = some o ∧
    (calculateBestMove h tl rand r difficulty).1.boards.get? o.boardRef =
      h.boards.get? o.boardRef ∧
    (calculateBestMove h tl rand r difficulty).1.hists.get? o.histRef =
      h.hists.get? o.histRef := by
  have hr : r < h.objs.length := by
    by_contra hge
    rw [List.get?_eq_none.mpr (by omega)] at hobj
    cases hobj
  have hf := @calculateBestMove_frame h.objs.length h.boards.length h.hists.length
    h tl rand r difficulty ⟨le_refl _, le_refl _, le_refl _⟩
  exact ⟨(hf.2.2.2.1 r hr).trans hobj, hf.2.2.2.2.1 o.boardRef hb,
    hf.2.2.2.2.2 o.histRef hh⟩

/-- C9 witness: a one-object heap (the live reset state) at every concrete
difficulty hypothesis discharged. -/
theorem c9_witness :
    (calculateBestMove
      ⟨[⟨0, 0, 15, 1, GStatus.ready, none, 0, none, true⟩], [fun _ _ => 0], [[]]⟩
      [] 0 0 Difficulty.BEGINNER).1.objs.get? 0 =
        some ⟨0, 0, 15, 1, GStatus.ready, none, 0, none, true⟩ ∧
    (calculateBestMove
      ⟨[⟨0, 0, 15, 1, GStatus.ready, none, 0, none, true⟩], [fun _ _ => 0], [[]]⟩
      [] 0 0 Difficulty.BEGINNER).1.boards.get? 0 =
      (⟨[⟨0, 0, 15, 1, GStatus.ready, none, 0, none, true⟩], [fun _ _ => 0],
        [[]]⟩ : AIHeap).boards.get? 0 ∧
    (calculateBestMove
      ⟨[⟨0, 0, 15, 1, GStatus.ready, none, 0, none, true⟩], [fun _ _ => 0], [[]]⟩
      [] 0 0 Difficulty.BEGINNER).1.hists.get? 0 =
      (⟨[⟨0, 0, 15, 1, GStatus.ready, none, 0, none, true⟩], [fun _ _ => 0],
        [[]]⟩ : AIHeap).hists.get? 0 :=
  c9_calculateBestMove_frame _ [] 0 0 Difficulty.BEGINNER
    ⟨0, 0, 15, 1, GStatus.ready, none, 0, none, true⟩ rfl (by decide) (by decide)

/-! ## Game-state lemmas (C5, C6, C10) -/

theorem boardSet_same (b : Board) (x y : ℤ) (v : ℕ) : boardSet b x y v x y = v := by
  simp [boardSet]

theorem boardSet_other (b : Board) (x y : ℤ) (v : ℕ) {a c : ℤ} (h : ¬(a = x ∧ c = y)) :
    boardSet b x y v a c = b a c := by
  simp [boardSet, h]

theorem isValidPosition_iff {size : ℕ} {x y : ℤ} :
    isValidPosition size x y = true ↔
      0 ≤ x ∧ x < (size : ℤ) ∧ 0 ≤ y ∧ y < (size : ℤ) := by
  simp [isValidPosition, and_assoc]

/-- Success characterization of `applyMove`. -/
theorem applyMove_eq_some {s : GameState} {x y : ℤ} {now : ℕ} {m : Move} {s' : GameState} :
    applyMove s x y now = some (m, s') ↔
      isValidPosition s.boardSize x y = true ∧ s.board x y = 0 ∧
      (s.gameStatus = GStatus.playing ∨ s.gameStatus = GStatus.ready) ∧
      m = ⟨x, y, s.currentPlayer, s.moveCount + 1, now, s.moveHistory.length + 1⟩ ∧
      s' = { s with
        board := boardSet s.board x y s.currentPlayer
        moveHistory := s.moveHistory ++
          [⟨x, y, s.currentPlayer, s.moveCount + 1, now, s.moveHistory.length + 1⟩]
        moveCount := s.moveCount + 1
        gameStatus := if s.gameStatus = GStatus.ready then GStatus.playing else s.gameStatus
        startTime := if s.gameStatus = GStatus.ready then some now else s.startTime } := by
  unfold applyMove
  by_cases h1 : isValidPosition s.boardSize x y = true
  · rw [if_neg (not_not.mpr h1)]
    by_cases h2 : s.board x y = 0
    · rw [if_neg (not_not.mpr h2)]
      by_cases h3 : s.gameStatus ≠ GStatus.playing ∧ s.gameStatus ≠ GStatus.ready
      · rw [if_pos h3]
        constructor
        · intro h
          cases h
        · rintro ⟨-, -, h3', -, -⟩
          rcases h3' with h' | h'
          · exact absurd h' h3.1
          · exact absurd h' h3.2
      · rw [if_neg h3]
        constructor
        · intro h
          have hps := Option.some.inj h
          refine ⟨h1, h2, ?_, (congrArg Prod.fst hps).symm, (congrArg Prod.snd hps).symm⟩
          rcases not_and_or.mp h3 with h' | h'
          · exact Or.inl (not_not.mp h')
          · exact Or.inr (not_not.mp h')
        · rintro ⟨-, -, -, rfl, rfl⟩
          rfl
    · rw [if_pos h2]
      constructor
      · intro h
        cases h
      · rintro ⟨-, h2', -, -, -⟩
        exact absurd h2' h2
  · rw [if_pos h1]
    constructor
    · intro h
      cases h
    · rintro ⟨h1', -, -, -, -⟩
      exact absurd h1' h1

theorem stateInv_reset : StateInv resetState := by
  refine ⟨one_ne_zero, by simp [resetState], by simp [resetState], ?_⟩
  intro x y h
  exact absurd rfl h

/-- `countPieces` under the invariant: the non-empty cells are exactly the
history positions. -/
theorem countPieces_eq_of_inv {s : GameState} (h : StateInv s) :
    countPieces s = s.moveHistory.length := by
  obtain ⟨-, hnd, hmem, hcov⟩ := h
  have hset : (((Finset.Icc (0 : ℤ) ((s.boardSize : ℤ) - 1)) ×ˢ
      (Finset.Icc (0 : ℤ) ((s.boardSize : ℤ) - 1))).filter fun p =>
        s.board p.1 p.2 ≠ 0) = (s.moveHistory.map Move.pos).toFinset := by
    ext p
    obtain ⟨a, c⟩ := p
    simp only [Finset.mem_filter, Finset.mem_product, Finset.mem_Icc, List.mem_toFinset]
    constructor
    · rintro ⟨-, hp⟩
      exact hcov a c hp
    · intro hp
      obtain ⟨m, hm, hpos⟩ := List.mem_map.mp hp
      obtain ⟨hvalid, hcell, hne⟩ := hmem m hm
      rw [isValidPosition_iff] at hvalid
      simp only [Move.pos, Prod.mk.injEq] at hpos
      obtain ⟨rfl, rfl⟩ := hpos
      refine ⟨⟨⟨hvalid.1, by omega⟩, hvalid.2.2.1, by omega⟩, ?_⟩
      rw [hcell]
      exact fun hz => hne hz
  rw [countPieces, hset, List.toFinset_card_of_nodup hnd, List.length_map]

/-- Success characterization of `undoMove`. -/
theorem undoMove_eq_some {s : GameState} {m : Move} {s' : GameState} :
    undoMove s = some (m, s') ↔
      s.moveHistory.getLast? = some m ∧
      s' = { s with
        moveHistory := s.moveHistory.dropLast
        board := boardSet s.board m.x m.y 0
        moveCount := s.moveCount - 1
        gameStatus :=
          if s.moveHistory.dropLast.length = 0 then GStatus.ready else s.gameStatus
        startTime := if s.moveHistory.dropLast.length = 0 then none else s.startTime
        winner := if s.moveHistory.dropLast.length = 0 then none else s.winner
        currentPlayer := m.player } := by
  unfold undoMove
  cases hl : s.moveHistory.getLast? with
  | none =>
    constructor
    · intro h
      cases h
    · rintro ⟨hm, -⟩
      cases hm
  | some m0 =>
    constructor
    · intro h
      have hps := Option.some.inj h
      have hm0 : m0 = m := congrArg Prod.fst hps
      subst hm0
      exact ⟨rfl, (congrArg Prod.snd hps).symm⟩
    · rintro ⟨hm, rfl⟩
      have hm0 : m0 = m := Option.some.inj hm
      subst hm0
      rfl

theorem stateInv_apply {s : GameState} (h : StateInv s) (x y : ℤ) (now : ℕ) :
    StateInv (stepOp s (GOp.apply x y now)) := by
  simp only [stepOp]
  cases happ : applyMove s x y now with
  | none => exact h
  | some ms =>
    obtain ⟨m, s'⟩ := ms
    show StateInv s'
    rw [applyMove_eq_some] at happ
    obtain ⟨hvalid, hempty, hstatus, hm, hs⟩ := happ
    obtain ⟨hcp, hnd, hmem, hcov⟩ := h
    have hb' : s'.board = boardSet s.board x y s.currentPlayer := by rw [hs]
    have hh' : s'.moveHistory = s.moveHistory ++ [m] := by rw [hs, hm]
    have hcp' : s'.currentPlayer = s.currentPlayer := by rw [hs]
    have hsz' : s'.boardSize = s.boardSize := by rw [hs]
    have hmx : m.x = x := by rw [hm]
    have hmy : m.y = y := by rw [hm]
    have hmp : m.player = s.currentPlayer := by rw [hm]
    have hmpos : m.pos = (x, y) := by rw [Move.pos, hmx, hmy]
    have hnotin : ((x, y) : ℤ × ℤ) ∉ s.moveHistory.map Move.pos := by
      intro hin
      obtain ⟨m', hm', hpos⟩ := List.mem_map.mp hin
      obtain ⟨-, hcell, hne⟩ := hmem m' hm'
      simp only [Move.pos, Prod.mk.injEq] at hpos
      obtain ⟨hx, hy⟩ := hpos
      rw [hx, hy, hempty] at hcell
      exact hne hcell.symm
    unfold StateInv
    rw [hb', hh', hcp', hsz']
    refine ⟨hcp, ?_, ?_, ?_⟩
    · simp only [List.map_append, List.map_cons, List.map_nil, List.nodup_append]
      refine ⟨hnd, List.nodup_singleton _, ?_⟩
      rw [List.disjoint_singleton, hmpos]
      exact hnotin
    · intro m' hm'
      rcases List.mem_append.mp hm' with hin | hin
      · obtain ⟨hv, hcell, hne⟩ := hmem m' hin
        have hneq : ¬(m'.x = x ∧ m'.y = y) := by
          rintro ⟨hx, hy⟩
          rw [hx, hy, hempty] at hcell
          exact hne hcell.symm
        exact ⟨hv, by rw [boardSet_other _ _ _ _ hneq]; exact hcell, hne⟩
      · have hm'm : m' = m := by simpa using hin
        subst hm'm
        refine ⟨?_, ?_, ?_⟩
        · rw [hmx, hmy]
          exact hvalid
        · rw [hmx, hmy, boardSet_same, hmp]
        · rw [hmp]
          exact hcp
    · intro a c hb
      by_cases hac : a = x ∧ c = y
      · obtain ⟨rfl, rfl⟩ := hac
        simp only [List.map_append, List.map_cons, List.map_nil, List.mem_append]
        right
        rw [hmpos]
        simp
      · rw [boardSet_other _ _ _ _ hac] at hb
        have := hcov a c hb
        simp only [List.map_append, List.mem_append]
        exact Or.inl this

theorem stateInv_undo {s : GameState} (h : StateInv s) : StateInv (stepOp s GOp.undo) := by
  simp only [stepOp]
  cases hu : undoMove s with
  | none => exact h
  | some ms =>
    obtain ⟨m, s'⟩ := ms
    show StateInv s'
    rw [undoMove_eq_some] at hu
    obtain ⟨hl, hs⟩ := hu
    obtain ⟨hcp, hnd, hmem, hcov⟩ := h
    have hb' : s'.board = boardSet s.board m.x m.y 0 := by rw [hs]
    have hh' : s'.moveHistory = s.moveHistory.dropLast := by rw [hs]
    have hcp' : s'.currentPlayer = m.player := by rw [hs]
    have hsz' : s'.boardSize = s.boardSize := by rw [hs]
    have hne : s.moveHistory ≠ [] := by
      intro he
      rw [he] at hl
      cases hl
    have hm : m = s.moveHistory.getLast hne := by
      have := List.getLast?_eq_getLast s.moveHistory hne
      rw [hl] at this
      exact Option.some.inj this
    have hdecomp : s.moveHistory = s.moveHistory.dropLast ++ [m] := by
      rw [hm]
      exact (List.dropLast_append_getLast hne).symm
    have hmmem : m ∈ s.moveHistory := by
      rw [hdecomp]
      simp
    obtain ⟨hmv, hmcell, hmne⟩ := hmem m hmmem
    have hmapdecomp : s.moveHistory.map Move.pos =
        (s.moveHistory.dropLast.map Move.pos) ++ [m.pos] := by
      conv_lhs => rw [hdecomp]
      simp
    have hnd' : (s.moveHistory.dropLast.map Move.pos).Nodup ∧
        m.pos ∉ s.moveHistory.dropLast.map Move.pos := by
      rw [hmapdecomp] at hnd
      have := List.nodup_append.mp hnd
      exact ⟨this.1, List.disjoint_singleton.mp this.2.2⟩
    unfold StateInv
    rw [hb', hh', hcp', hsz']
    refine ⟨hmne, hnd'.1, ?_, ?_⟩
    · intro m' hm'
      have hin : m' ∈ s.moveHistory := (List.dropLast_sublist _).subset hm'
      obtain ⟨hv, hcell, hne'⟩ := hmem m' hin
      have hposne : ¬(m'.x = m.x ∧ m'.y = m.y) := by
        rintro ⟨hx, hy⟩
        apply hnd'.2
        have hpp : m'.pos = m.pos := by
          simp [Move.pos, hx, hy]
        rw [← hpp]
        exact List.mem_map_of_mem Move.pos hm'
      exact ⟨hv, by rw [boardSet_other _ _ _ _ hposne]; exact hcell, hne'⟩
    · intro a c hb
      by_cases hac : a = m.x ∧ c = m.y
      · obtain ⟨rfl, rfl⟩ := hac
        rw [boardSet_same] at hb
        exact absurd rfl hb
      · rw [boardSet_other _ _ _ _ hac] at hb
        have := hcov a c hb
        rw [hmapdecomp] at this
        rcases List.mem_append.mp this with hin | hin
        · exact hin
        · exfalso
          apply hac
          have hacm : (a, c) = m.pos := by simpa using hin
          rw [Move.pos] at hacm
          exact ⟨congrArg Prod.fst hacm, congrArg Prod.snd hacm⟩

theorem stateInv_execOps (ops : List GOp) : ∀ s : GameState, StateInv s →
    StateInv (execOps s ops) := by
  induction ops with
  | nil => intro s h; exact h
  | cons op ops ih =>
    intro s h
    cases op with
    | apply x y now => exact ih _ (stateInv_apply h x y now)
    | undo => exact ih _ (stateInv_undo h)

/-- C5: after any sequence of (successful) `applyMove` / `undoMove`
operations from a reset state, the number of non-empty board cells equals
the length of the move history.  A failing operation leaves the state
unchanged (the JS throw happens before any mutation), so the statement
quantifies over all operation sequences. -/
theorem c5_piece_count_invariant (ops : List GOp) :
    countPieces (execOps resetState ops) = (execOps resetState ops).moveHistory.length :=
  countPieces_eq_of_inv (stateInv_execOps ops resetState stateInv_reset)

/-- C6: `undoMove` immediately after a successful `applyMove` restores the
board function and the move history exactly (and pops exactly the move that
`applyMove` recorded). -/
theorem c6_apply_undo_roundtrip (s : GameState) (x y : ℤ) (now : ℕ) (m : Move)
    (s' : GameState) (h : applyMove s x y now = some (m, s')) :
    ∃ r : Move × GameState, undoMove s' = some r ∧
      r.1 = m ∧ r.2.board = s.board ∧ r.2.moveHistory = s.moveHistory := by
  rw [applyMove_eq_some] at h
  obtain ⟨hvalid, hempty, hstatus, hm, hs⟩ := h
  have hsb : s'.board = boardSet s.board x y s.currentPlayer := by rw [hs]
  have hsh : s'.moveHistory = s.moveHistory ++ [m] := by rw [hs, hm]
  have hmx : m.x = x := by rw [hm]
  have hmy : m.y = y := by rw [hm]
  have hlast : s'.moveHistory.getLast? = some m := by
    rw [hsh]
    exact List.getLast?_concat _
  refine ⟨_, undoMove_eq_some.mpr ⟨hlast, rfl⟩, rfl, ?_, ?_⟩
  · show boardSet s'.board m.x m.y 0 = s.board
    funext a c
    by_cases hac : a = m.x ∧ c = m.y
    · obtain ⟨rfl, rfl⟩ := hac
      rw [boardSet_same, hmx, hmy, hempty]
    · rw [boardSet_other _ _ _ _ hac, hsb]
      apply boardSet_other
      rintro ⟨rfl, rfl⟩
      exact hac ⟨hmx.symm, hmy.symm⟩
  · show s'.moveHistory.dropLast = s.moveHistory
    rw [hsh]
    exact List.dropLast_concat

/-- C6 witness at the concrete input: apply at the centre of a reset state,
then undo. -/
theorem c6_witness :
    ∃ m : Move, ∃ s' : GameState, applyMove resetState 7 7 0 = some (m, s') ∧
      ∃ r : Move × GameState, undoMove s' = some r ∧ r.1 = m ∧
        r.2.board = resetState.board ∧ r.2.moveHistory = resetState.moveHistory := by
  have hs : (applyMove resetState 7 7 0).isSome = true := by decide
  obtain ⟨⟨m, s'⟩, hms⟩ := Option.isSome_iff_exists.mp hs
  exact ⟨m, s', hms, c6_apply_undo_roundtrip resetState 7 7 0 m s' hms⟩

/-- C10: a successful `applyMove` does not change `currentPlayer` (the move
is recorded for the current player), and alternation happens only through
`switchPlayer`, which toggles 1 ↔ 2. -/
theorem c10_applyMove_preserves_player (s : GameState) (x y : ℤ) (now : ℕ)
    (m : Move) (s' : GameState) (h : applyMove s x y now = some (m, s')) :
    s'.currentPlayer = s.currentPlayer ∧ m.player = s.currentPlayer ∧
    (switchPlayer s).currentPlayer = (if s.currentPlayer = 1 then 2 else 1) := by
  rw [applyMove_eq_some] at h
  obtain ⟨-, -, -, hm, hs⟩ := h
  subst hm hs
  exact ⟨rfl, rfl, rfl⟩

/-- C10 witness at the concrete input: apply at the centre of a reset
state. -/
theorem c10_witness :
    ∃ m : Move, ∃ s' : GameState, applyMove resetState 7 7 0 = some (m, s') ∧
      s'.currentPlayer = resetState.currentPlayer ∧
      m.player = resetState.currentPlayer ∧
      (switchPlayer resetState).currentPlayer =
        (if resetState.currentPlayer = 1 then 2 else 1) := by
  have hs : (applyMove resetState 7 7 0).isSome = true := by decide
  obtain ⟨⟨m, s'⟩, hms⟩ := Option.isSome_iff_exists.mp hs
  exact ⟨m, s', hms, c10_applyMove_preserves_player resetState 7 7 0 m s' hms⟩

end WebGoFive
